import Mathlib

namespace CBX

/-!
# Verification of the Codebase-Explainer analysis services

Shallow embedding of the pure logic of `app/services/dependency_graph.py`,
`app/services/comparison.py`, `app/services/metadata_builder.py` and the
template summarizer of `app/routes/summary.py`.

Modelling conventions:
* Python `str` is Lean `String`; `str.replace` / `str.split('.')` /
  `'.'.join` are re-implemented structurally (`pyReplace`, `pySplitDot`,
  `joinDot`) with Python's leftmost non-overlapping replace-all semantics.
* Python `dict` is an insertion-ordered association list with unique-key
  update-in-place semantics; `set` is an insertion-ordered duplicate-free
  list.  `dict.get(k, default)` never inserts, matching the source's use.
* Python file content is abstracted by `PyContent`: the outcome of
  `ast.parse` (either the structured data the services read off the AST, or
  a `SyntaxError` with line and message) together with the raw line counts.
  The services under verification never inspect the AST beyond these fields.
* Python `float` is modelled by `ℚ`; `round(x, n)` is modelled by
  `⌊x·10ⁿ + 1/2⌋ / 10ⁿ`.  (CPython rounds the nearest binary float to even;
  the two agree except on exact decimal ties, which no verified statement
  exercises.)
* Wall-clock fields (`compared_at`, `uploaded_at`) and SHA-256 hashing are
  outside the embedding; content hashes are carried as given strings.
-/

/-! ## Python string primitives -/

/-- One step of Python `str.replace`: leftmost, non-overlapping, all
occurrences.  `fuel` bounds the recursion; each step consumes at least one
character, so `cs.length` fuel is always enough. -/
def pyReplaceAux (pat repl : List Char) : Nat → List Char → List Char
  | _, [] => []
  | 0, cs => cs
  | fuel + 1, c :: cs =>
    if pat ≠ [] ∧ pat.isPrefixOf (c :: cs) then
      repl ++ pyReplaceAux pat repl fuel ((c :: cs).drop pat.length)
    else
      c :: pyReplaceAux pat repl fuel cs

/-- Python `s.replace(pat, repl)` for non-empty `pat` (every use in the
source has a non-empty pattern). -/
def pyReplace (s pat repl : String) : String :=
  ⟨pyReplaceAux pat.data repl.data s.data.length s.data⟩

/-- Python `s.split(sep)` on the character level: `""` splits to `[[]]`. -/
def splitCharAux (sep : Char) : List Char → List (List Char)
  | [] => [[]]
  | c :: cs =>
    let r := splitCharAux sep cs
    if c = sep then [] :: r
    else (c :: r.headD []) :: r.tail

/-- Python `s.split('.')`. -/
def pySplitDot (s : String) : List String :=
  (splitCharAux '.' s.data).map String.mk

/-- Python `'.'.join(l)`. -/
def joinDot : List String → String
  | [] => ""
  | [x] => x
  | x :: y :: xs => x ++ "." ++ joinDot (y :: xs)

/-- Python `'.' in s` on the raw character data. -/
def containsDot (s : String) : Bool := s.data.contains '.'

/-- Python `s.startswith(p)`. -/
def pyStartsWith (s p : String) : Bool := p.data.isPrefixOf s.data

/-! ## Python dict / set models -/

/-- Insertion-ordered string-valued dict. -/
abbrev StrMap := List (String × String)

/-- `m.get(k)` / `k in m`: the first (unique, for dict-built maps) entry. -/
def mapLookup (m : StrMap) (k : String) : Option String :=
  (m.find? (fun e => e.1 == k)).map (·.2)

/-- Python `k in m`. -/
def mapContains (m : StrMap) (k : String) : Bool :=
  (m.find? (fun e => e.1 == k)).isSome

/-- Python `m[k] = v`: overwrite in place, else append. -/
def mapSet : StrMap → String → String → StrMap
  | [], k, v => [(k, v)]
  | e :: rest, k, v =>
    if e.1 = k then (k, v) :: rest else e :: mapSet rest k v

/-- `if k not in m: m[k] = v` — the guarded registration of
`_build_module_mapping`. -/
def mapSetIfAbsent (m : StrMap) (k v : String) : StrMap :=
  if mapContains m k then m else m ++ [(k, v)]

/-! ## `dependency_graph.py`: module mapping and import resolution -/

/-- `file_path.replace('/', '.').replace('\\', '.').replace('.py', '')`
(line 113 of `dependency_graph.py`). -/
def moduleName (p : String) : String :=
  pyReplace (pyReplace (pyReplace p "/" ".") "\x5c" ".") ".py" ""

/-- The suffix loop of `_build_module_mapping`:
`for i in range(len(parts)): partial = '.'.join(parts[i:]);`
`if partial not in module_map: module_map[partial] = file_path`. -/
def registerSuffixes (parts : List String) (fp : String) (m : StrMap) : StrMap :=
  (List.range parts.length).foldl
    (fun m i => mapSetIfAbsent m (joinDot (parts.drop i)) fp) m

/-- One iteration of `_build_module_mapping`'s outer loop: unconditional
`module_map[module_name] = file_path`, then the guarded suffix loop. -/
def registerFile (m : StrMap) (fp : String) : StrMap :=
  let mn := moduleName fp
  registerSuffixes (pySplitDot mn) fp (mapSet m mn fp)

/-- `_build_module_mapping` over the files of `files_data` in insertion
order. -/
def buildModuleMapping (files : List String) : StrMap :=
  files.foldl registerFile []

/-- `[n, n-1, ..., 1]` — Python `range(len(parts), 0, -1)`. -/
def descRange : Nat → List Nat
  | 0 => []
  | n + 1 => (n + 1) :: descRange n

/-- The prefix-stripping loop of `_resolve_import`. -/
def resolvePrefixes (parts : List String) (m : StrMap) : List Nat → Option String
  | [] => none
  | i :: rest =>
    match mapLookup m (joinDot (parts.take i)) with
    | some f => some f
    | none => resolvePrefixes parts m rest

/-- `_resolve_import`: exact dotted-name match, else the first prefix
(stripping trailing components) that is in the mapping, else `none`. -/
def resolveImport (imp : String) (m : StrMap) : Option String :=
  match mapLookup m imp with
  | some f => some f
  | none => resolvePrefixes (pySplitDot imp) m (descRange (pySplitDot imp).length)

/-- `_is_local_import`: the configured local-looking top-level names. -/
def localPatterns : List String :=
  ["app", "src", "lib", "utils", "services", "models", "routes"]

/-- `_is_local_import(import_name)`. -/
def isLocalImport (imp : String) : Bool :=
  localPatterns.contains ((pySplitDot imp).headD "")

/-! ## `dependency_graph.py`: forward/reverse adjacency -/

/-- `defaultdict(set)` keyed by file path, as an insertion-ordered
association list with insertion-ordered duplicate-free neighbour lists. -/
abbrev Adj := List (String × List String)

/-- `self.graph.get(k, set())` — never inserts. -/
def adjGet (g : Adj) (k : String) : List String :=
  ((g.find? (fun e => e.1 == k)).map (·.2)).getD []

/-- `self.graph[k].add(v)` on a `defaultdict(set)`. -/
def adjAdd : Adj → String → String → Adj
  | [], k, v => [(k, [v])]
  | e :: rest, k, v =>
    if e.1 = k then (if v ∈ e.2 then e :: rest else (e.1, e.2 ++ [v]) :: rest)
    else e :: adjAdd rest k v

/-- The mutable builder state touched by `_build_relationships`. -/
structure RelState where
  graph : Adj
  reverseGraph : Adj
  missingImports : List (String × String)
deriving Repr, DecidableEq

/-- Initial builder state (`__init__`). -/
def RelState.init : RelState := ⟨[], [], []⟩

/-- The body of `_build_relationships`' inner loop for one import token. -/
def processImport (mmap : StrMap) (fp : String) (st : RelState) (imp : String) :
    RelState :=
  match resolveImport imp mmap with
  | some tgt =>
    { st with
      graph := adjAdd st.graph fp tgt
      reverseGraph := adjAdd st.reverseGraph tgt fp }
  | none =>
    if isLocalImport imp then
      { st with missingImports := st.missingImports ++ [(fp, imp)] }
    else st

/-- `_build_relationships` over `files_data` (file path ↦ raw import
tokens, in insertion order). -/
def buildRelationships (filesData : List (String × List String)) : RelState :=
  let mmap := buildModuleMapping (filesData.map (·.1))
  filesData.foldl (fun st e => e.2.foldl (processImport mmap e.1) st) RelState.init

/-- Transpose invariant between the two adjacency structures. -/
def Transposed (st : RelState) : Prop :=
  ∀ s t, t ∈ adjGet st.graph s ↔ s ∈ adjGet st.reverseGraph t

/-- The classification predicate of `_build_relationships`' `elif` branch:
unresolved and local-looking. -/
def missingLocal (mmap : StrMap) (imp : String) : Bool :=
  (resolveImport imp mmap).isNone && isLocalImport imp

/-- `sep.join` on the character level, mirroring `joinDot`. -/
def charJoin (sep : Char) : List (List Char) → List Char
  | [] => []
  | [x] => x
  | x :: y :: xs => x ++ sep :: charJoin sep (y :: xs)

/-- The resolution procedure as the spec words it: exact dotted-name match
first, else progressively strip trailing components and return the mapping
of the first prefix that hits, else unresolved.  (Second definition, written
from the spec for the C4 refinement comparison; `resolveImport` is the one
translated from `_resolve_import`.) -/
def resolveImportSpec (imp : String) (m : StrMap) : Option String :=
  match mapLookup m imp with
  | some f => some f
  | none =>
    resolvePrefixes (pySplitDot imp) m (descRange ((pySplitDot imp).length - 1))

/-! ## `dependency_graph.py`: cycle detection -/

/-- `b ∈ self.graph.get(a, [])` — a dependency edge. -/
def edge (g : Adj) (a b : String) : Prop := b ∈ adjGet g a

instance (g : Adj) (a b : String) : Decidable (edge g a b) := by
  unfold edge
  infer_instance

/-- Python `list.index` (`path.index(neighbor)`), `none` when the element is
absent (where Python raises `ValueError`). -/
def pyIndex (x : String) : List String → Option Nat
  | [] => none
  | y :: ys => if y = x then some 0 else (pyIndex x ys).map (· + 1)

/-- The mutable state threaded through `_detect_circular_dependencies`. -/
structure DfsState where
  visited : List String
  recStack : List String
  cycles : List (List String)
deriving Repr, DecidableEq

/-- The `for neighbor in self.graph.get(node, [])` loop of the inner `dfs`,
together with the recursive descent.  `path` is the Python `path` list of
the current frame, ending in `node`.  `fuel` is decremented on every
recursive call; exhaustion behaves like the worklist-end exit and is
unreachable from `detectCircular`, whose fuel bounds the total number of
calls of any run (each call pops one worklist item — at most one frame per
node, so at most `Σ|adj|` pops — or exits a frame — at most `|nodes| + 1`
frames).  A neighbour on `rec_stack` but not on `path` reproduces Python's
uncaught `ValueError` from `path.index(neighbor)`, modelled as
`Except.error`. -/
def dfsGo (g : Adj) : Nat → List String → List String → String → DfsState →
    Except Unit (Bool × DfsState)
  | _, [], _, node, st =>
    .ok (false, { st with recStack := st.recStack.erase node })
  | 0, _ :: _, _, node, st =>
    .ok (false, { st with recStack := st.recStack.erase node })
  | fuel + 1, nb :: rest, path, node, st =>
    if nb ∈ st.visited then
      if nb ∈ st.recStack then
        match pyIndex nb path with
        | some i =>
          .ok (true, { st with cycles := st.cycles ++ [path.drop i ++ [nb]] })
        | none => .error ()
      else dfsGo g fuel rest path node st
    else
      match dfsGo g fuel (adjGet g nb) (path ++ [nb]) nb
          { st with visited := nb :: st.visited,
                    recStack := nb :: st.recStack } with
      | .error e => .error e
      | .ok (found, st2) =>
        if found then .ok (true, st2)
        else dfsGo g fuel rest path node st2

/-- The outer `for node in self.graph.keys(): if node not in visited:`
`dfs(node, [])` loop; the boolean result of `dfs` is discarded. -/
def detectLoop (g : Adj) (fuel : Nat) : List String → DfsState →
    Except Unit DfsState
  | [], st => .ok st
  | r :: rest, st =>
    if r ∈ st.visited then detectLoop g fuel rest st
    else
      match dfsGo g fuel (adjGet g r) [r] r
          { st with visited := r :: st.visited,
                    recStack := r :: st.recStack } with
      | .error e => .error e
      | .ok (_, st2) => detectLoop g fuel rest st2

/-- Every node that occurs in the adjacency structure. -/
def adjNodes (g : Adj) : List String := g.map (·.1) ++ (g.map (·.2)).flatten

/-- Fuel that dominates the call count of any single traversal:
`|nodes| + Σ|adjacency lists| + 1`. -/
def totalFuel (g : Adj) : Nat :=
  (adjNodes g).length + ((g.map (·.2)).flatten).length + 1

/-- `_detect_circular_dependencies`: the recorded `self.circular_deps`, or
`Except.error` on the uncaught `ValueError`. -/
def detectCircular (g : Adj) : Except Unit (List (List String)) :=
  (detectLoop g (totalFuel g) (g.map (·.1)) ⟨[], [], []⟩).map (·.cycles)

/-- The shape of every recorded cycle: the slice of the DFS path from the
repeated node's first occurrence, closed by the repeated node — a closed
edge-walk visiting the repeated node only at its two ends. -/
def CycleShape (g : Adj) (c : List String) : Prop :=
  ∃ n t, c = n :: (t ++ [n]) ∧ List.Chain' (edge g) c ∧ (n :: t).Nodup

/-! ## Abstracted Python file content -/

deriving instance DecidableEq for Except

/-- A Python `SyntaxError`: the fields the services read. -/
structure PySyntaxErr where
  line : Nat
  message : String
deriving Repr, DecidableEq

/-- What the services read off a successfully parsed AST: `imports` are the
tokens the dependency/metadata extractors collect in `ast.walk` order
(`alias.name` for `import`, `node.module` for `from … import` with a
non-`None` module); `summaryImports` are the tokens `_safe_extract_imports`
of the summary route collects (it spells `from M import a` as `"M.a"`, so
the two lists differ); `classes`/`functions` are the `ast.walk` counts of
`ClassDef` / `FunctionDef` nodes. -/
structure PyParseOk where
  imports : List String
  summaryImports : List String
  classes : Nat
  functions : Nat
deriving Repr, DecidableEq

/-- Abstraction of one Python file's text: `newlines` is
`content.count('\n')`, `splitlinesCount` is `len(code.splitlines())`, and
`parse` is the outcome of `ast.parse`. -/
structure PyContent where
  newlines : Nat
  splitlinesCount : Nat
  parse : Except PySyntaxErr PyParseOk
deriving Repr, DecidableEq

/-- An uploaded tree as `build_graph` sees it: the `**/*.py` files'
relative paths with their content (`none` when reading raises, the generic
`except` branch). -/
abbrev PyTree := List (String × Option PyContent)

/-- `_extract_imports`: the tokens of a parsed file; `[]` both on
`SyntaxError` (parse precedes the walk, so nothing was collected) and on
any other exception. -/
def extractImports (c : Option PyContent) : List String :=
  match c with
  | none => []
  | some c =>
    match c.parse with
    | .ok p => p.imports
    | .error _ => []

/-! ## `dependency_graph.py`: `_generate_graph_data` -/

/-- Python `s.split('/')`. -/
def pySplitSlash (s : String) : List String :=
  (splitCharAux '/' s.data).map String.mk

/-- `Path(file_path).name` for the forward-slash relative paths the builder
produces. -/
def pyBasename (p : String) : String := (pySplitSlash p).getLastD p

/-- One entry of the `nodes` list. -/
structure NodeInfo where
  id : String
  label : String
  fullPath : String
  importsCount : Nat
  importedByCount : Nat
  size : Nat
deriving Repr, DecidableEq

/-- One entry of the `edges` list (`arrows` is the constant `"to"`). -/
structure EdgeInfo where
  id : Nat
  source : String
  target : String
  arrows : String
deriving Repr, DecidableEq

/-- The `statistics` dict. -/
structure GraphStats where
  totalFiles : Nat
  totalDependencies : Nat
  circularDependencies : Nat
  missingImports : Nat
  isolatedFiles : Nat
  mostImported : List (String × Nat)
  mostImports : List (String × Nat)
deriving Repr, DecidableEq

/-- The value returned by `build_graph`. -/
structure GraphData where
  nodes : List NodeInfo
  edges : List EdgeInfo
  circularDependencies : List (List String)
  missingImports : List (String × String)
  statistics : GraphStats
deriving Repr, DecidableEq

/-- `_get_most_imported` / `_get_most_imports`: `(file, count)` sorted by
count descending (stable, like Python's `list.sort(reverse=True)`), first
`limit` entries. -/
def topCounts (a : Adj) (limit : Nat) : List (String × Nat) :=
  ((a.map (fun e => (e.1, e.2.length))).insertionSort
    (fun x y => y.2 ≤ x.2)).take limit

/-- `_generate_graph_data`.  `all_files = set(files_data.keys())` is
modelled in first-insertion order (CPython set order is unspecified). -/
def generateGraphData (filesData : List (String × List String)) (st : RelState)
    (cycles : List (List String)) : GraphData :=
  let allFiles := (filesData.map (·.1)).dedup
  let nodes := allFiles.map (fun f =>
    { id := f
      label := pyBasename f
      fullPath := f
      importsCount := (adjGet st.graph f).length
      importedByCount := (adjGet st.reverseGraph f).length
      size := max 10 ((adjGet st.reverseGraph f).length * 5) : NodeInfo })
  let edgePairs := (st.graph.map (fun e => e.2.map (fun t => (e.1, t)))).flatten
  let edges := edgePairs.enum.map (fun p =>
    { id := p.1, source := p.2.1, target := p.2.2, arrows := "to" : EdgeInfo })
  { nodes := nodes
    edges := edges
    circularDependencies := cycles
    missingImports := st.missingImports
    statistics :=
      { totalFiles := allFiles.length
        totalDependencies := edges.length
        circularDependencies := cycles.length
        missingImports := st.missingImports.length
        isolatedFiles := (allFiles.filter (fun f =>
          adjGet st.graph f = [] ∧ adjGet st.reverseGraph f = [])).length
        mostImported := topCounts st.reverseGraph 3
        mostImports := topCounts st.graph 3 } }

/-- `build_graph` on a freshly constructed `DependencyGraphBuilder` (as the
routes do): extract imports of every file, build relationships, detect
cycles, generate the graph data.  `Except.error` is the uncaught
`ValueError` of the cycle detector. -/
def buildGraph (t : PyTree) : Except Unit GraphData :=
  let filesData := t.map (fun e => (e.1, extractImports e.2))
  let st := buildRelationships filesData
  match detectCircular st.graph with
  | .error e => .error e
  | .ok cycles => .ok (generateGraphData filesData st cycles)

/-- The record returned by `get_file_dependencies`. -/
structure FileDeps where
  file : String
  importsFrom : List String
  importedBy : List String
  importsCount : Nat
  importedByCount : Nat
deriving Repr, DecidableEq

/-- `get_file_dependencies(file_path)`: pure reads via `.get(…, set())`,
never touching the stored graphs. -/
def getFileDependencies (st : RelState) (p : String) : FileDeps :=
  { file := p
    importsFrom := adjGet st.graph p
    importedBy := adjGet st.reverseGraph p
    importsCount := (adjGet st.graph p).length
    importedByCount := (adjGet st.reverseGraph p).length }

/-- The three-file tree in which `a.py` imports `b`, `b.py` imports `c`,
and `c.py` imports `a`. -/
def cyclicTriangle : PyTree :=
  [("a.py", some ⟨0, 0, .ok ⟨["b"], ["b"], 0, 0⟩⟩),
   ("b.py", some ⟨0, 0, .ok ⟨["c"], ["c"], 0, 0⟩⟩),
   ("c.py", some ⟨0, 0, .ok ⟨["a"], ["a"], 0, 0⟩⟩)]

/-! ## `comparison.py`: data model -/

/-- `FileMetadataStandard` (the fields `compare` reads).  `contentHash`
carries `""` for both Python's `None` and the empty hash — the two falsy
cases of `if base_file.content_hash and compare_file.content_hash`. -/
structure FileMetadataStandard where
  relativePath : String
  filename : String
  sizeBytes : Nat
  extension : String
  linesCount : Option Nat
  classesCount : Nat
  functionsCount : Nat
  imports : List String
  contentHash : String
deriving Repr, DecidableEq, Inhabited

/-- `DependencyMetadata`. -/
structure DependencyMetadata where
  totalDependencies : Nat
  circularDependencies : List (List String)
  mostImportedFiles : List (String × Nat)
  missingImports : List String
  externalPackages : List String
deriving Repr, DecidableEq

/-- `CodebaseMetadata` (wall-clock fields `uploaded_at` /
`summaries_generated_at` and the unused `version_tag` are outside the
embedding). -/
structure CodebaseMetadata where
  uploadId : String
  name : String
  totalFiles : Nat
  totalBytes : Nat
  fileTypes : List (String × Nat)
  folderStructure : List (String × Nat)
  totalLines : Nat
  totalClasses : Nat
  totalFunctions : Nat
  dependencies : Option DependencyMetadata
  files : List FileMetadataStandard
  hasSummaries : Bool
deriving Repr, DecidableEq

/-- `CodebaseComparison` (minus the wall-clock `compared_at`). -/
structure CodebaseComparison where
  baseUploadId : String
  compareUploadId : String
  baseName : String
  compareName : String
  filesAdded : List String
  filesRemoved : List String
  filesModified : List String
  filesUnchanged : List String
  sizeChangeBytes : Int
  sizeChangePercent : ℚ
  linesChange : Int
  linesChangePercent : ℚ
  classesChange : Int
  functionsChange : Int
  dependenciesAdded : List String
  dependenciesRemoved : List String
  newCircularDependencies : List (List String)
  resolvedCircularDependencies : List (List String)
  similarityScore : ℚ
  comparisonSummary : String
deriving Repr, DecidableEq

/-! ## `comparison.py`: the comparator -/

/-- `{f.relative_path: f for f in files}` — later entries win. -/
def filesDict (files : List FileMetadataStandard) (p : String) :
    Option FileMetadataStandard :=
  files.foldl (fun acc f => if f.relativePath = p then some f else acc) none

/-- The relative-path set of a file list, as a duplicate-free list. -/
def pathsOf (files : List FileMetadataStandard) : List String :=
  (files.map (·.relativePath)).dedup

/-- Python `sorted` on strings (stable; on the duplicate-free inputs of
`_compare_file_structures` order is unique anyway). -/
def pySorted (l : List String) : List String := l.insertionSort (· ≤ ·)

/-- `round(x, digits)` on the rational model of Python floats (CPython
rounds the nearest binary double to even; exact decimal ties, where the two
differ, are not exercised by any verified statement). -/
def pyRound (q : ℚ) (digits : Nat) : ℚ :=
  (Int.floor (q * 10 ^ digits + 1 / 2) : ℚ) / 10 ^ digits

/-- The modified/unchanged classification of one common path: hashes when
both are truthy, else size. -/
def isModifiedAt (baseFiles compareFiles : List FileMetadataStandard)
    (p : String) : Bool :=
  let bf := (filesDict baseFiles p).getD default
  let cf := (filesDict compareFiles p).getD default
  if bf.contentHash ≠ "" ∧ cf.contentHash ≠ "" then bf.contentHash ≠ cf.contentHash
  else bf.sizeBytes ≠ cf.sizeBytes

/-- The four sorted lists of `_compare_file_structures`. -/
structure FileChanges where
  added : List String
  removed : List String
  modified : List String
  unchanged : List String
deriving Repr, DecidableEq

/-- `_compare_file_structures`. -/
def compareFileStructures (base comp : CodebaseMetadata) : FileChanges :=
  let basePaths := pathsOf base.files
  let comparePaths := pathsOf comp.files
  let common := basePaths.filter (· ∈ comparePaths)
  { added := pySorted (comparePaths.filter (· ∉ basePaths))
    removed := pySorted (basePaths.filter (· ∉ comparePaths))
    modified := pySorted (common.filter (isModifiedAt base.files comp.files))
    unchanged := pySorted (common.filter (fun p =>
      !(isModifiedAt base.files comp.files p))) }

/-- The dict of `_compare_metrics`. -/
structure MetricChanges where
  sizeChange : Int
  sizeChangePercent : ℚ
  linesChange : Int
  linesChangePercent : ℚ
  classesChange : Int
  functionsChange : Int
deriving Repr, DecidableEq

/-- `_compare_metrics`. -/
def compareMetrics (base comp : CodebaseMetadata) : MetricChanges :=
  let sizeChange : Int := (comp.totalBytes : Int) - (base.totalBytes : Int)
  let sizePercent : ℚ :=
    if 0 < base.totalBytes then (sizeChange : ℚ) / (base.totalBytes : ℚ) * 100 else 0
  let linesChange : Int := (comp.totalLines : Int) - (base.totalLines : Int)
  let linesPercent : ℚ :=
    if 0 < base.totalLines then (linesChange : ℚ) / (base.totalLines : ℚ) * 100 else 0
  { sizeChange := sizeChange
    sizeChangePercent := pyRound sizePercent 2
    linesChange := linesChange
    linesChangePercent := pyRound linesPercent 2
    classesChange := (comp.totalClasses : Int) - (base.totalClasses : Int)
    functionsChange := (comp.totalFunctions : Int) - (base.totalFunctions : Int) }

/-- The dict of `_compare_dependencies`. -/
structure DepChanges where
  added : List String
  removed : List String
  newCircular : List (List String)
  resolvedCircular : List (List String)
deriving Repr, DecidableEq

/-- `_compare_dependencies` (`None` dependencies short-circuit to empty
lists; set differences are modelled on duplicate-free lists). -/
def compareDependencies (base comp : CodebaseMetadata) : DepChanges :=
  match base.dependencies, comp.dependencies with
  | some bd, some cd =>
    let basePkgs := bd.externalPackages.dedup
    let compPkgs := cd.externalPackages.dedup
    let baseCirc := bd.circularDependencies.dedup
    let compCirc := cd.circularDependencies.dedup
    { added := pySorted (compPkgs.filter (· ∉ basePkgs))
      removed := pySorted (basePkgs.filter (· ∉ compPkgs))
      newCircular := compCirc.filter (· ∉ baseCirc)
      resolvedCircular := baseCirc.filter (· ∉ compCirc) }
  | _, _ => { added := [], removed := [], newCircular := [], resolvedCircular := [] }

/-- `_calculate_similarity`. -/
def calculateSimilarity (base comp : CodebaseMetadata) : ℚ :=
  let baseCount := base.files.length
  let compareCount := comp.files.length
  if baseCount = 0 ∧ compareCount = 0 then 1
  else if baseCount = 0 ∨ compareCount = 0 then 0
  else
    let basePaths := pathsOf base.files
    let comparePaths := pathsOf comp.files
    let commonFiles := basePaths.filter (· ∈ comparePaths)
    let totalUnique := basePaths ++ comparePaths.filter (· ∉ basePaths)
    if totalUnique.length = 0 then 1
    else pyRound ((commonFiles.length : ℚ) / (totalUnique.length : ℚ)) 3

/-- `sep.join(l)`. -/
def joinSep (sep : String) : List String → String
  | [] => ""
  | [x] => x
  | x :: y :: xs => x ++ sep ++ joinSep sep (y :: xs)

/-- `f"{n}"` digits of `n/10` (helper for the one-decimal formats). -/
def fmtTenths (n : Nat) : String := toString (n / 10) ++ "." ++ toString (n % 10)

/-- `f"{abs(q):.1f}"` — decimal-rounding model of CPython float
formatting, used only inside summary lines. -/
def fmt1 (q : ℚ) : String := fmtTenths (Int.floor (|q| * 10 + 1 / 2)).toNat

/-- `f"{q:+.1f}"`. -/
def fmtSigned1 (q : ℚ) : String := (if q < 0 then "-" else "+") ++ fmt1 q

/-- `_generate_summary`. -/
def generateSummary (fc : FileChanges) (mc : MetricChanges) (dc : DepChanges) :
    String :=
  let lines : List String := []
  let lines := if fc.added ≠ [] then
      lines ++ ["Added " ++ toString fc.added.length ++ " new files"] else lines
  let lines := if fc.removed ≠ [] then
      lines ++ ["Removed " ++ toString fc.removed.length ++ " files"] else lines
  let lines := if fc.modified ≠ [] then
      lines ++ ["Modified " ++ toString fc.modified.length ++ " files"] else lines
  let lines := if 1024 < mc.sizeChange.natAbs then
      lines ++ ["Codebase size " ++
        (if 0 < mc.sizeChange then "increased" else "decreased") ++ " by " ++
        fmt1 ((mc.sizeChange : ℚ) / 1024) ++ " KB (" ++
        fmtSigned1 mc.sizeChangePercent ++ "%)"]
    else lines
  let lines := if mc.linesChange ≠ 0 then
      lines ++ [toString mc.linesChange.natAbs ++ " lines " ++
        (if 0 < mc.linesChange then "added" else "removed") ++ " (" ++
        fmtSigned1 mc.linesChangePercent ++ "%)"]
    else lines
  let lines := if dc.added ≠ [] then
      lines ++ ["Added dependencies: " ++ joinSep ", " (dc.added.take 5) ++
        (if 5 < dc.added.length then
          " and " ++ toString (dc.added.length - 5) ++ " more" else "")]
    else lines
  let lines := if dc.newCircular ≠ [] then
      lines ++ ["⚠️ Introduced " ++ toString dc.newCircular.length ++
        " new circular dependencies"] else lines
  let lines := if dc.resolvedCircular ≠ [] then
      lines ++ ["✓ Resolved " ++ toString dc.resolvedCircular.length ++
        " circular dependencies"] else lines
  if lines = [] then "No significant changes detected"
  else joinSep "; " lines

/-- `CodebaseComparator.compare`. -/
def compare (base comp : CodebaseMetadata) : CodebaseComparison :=
  let fc := compareFileStructures base comp
  let mc := compareMetrics base comp
  let dc := compareDependencies base comp
  { baseUploadId := base.uploadId
    compareUploadId := comp.uploadId
    baseName := base.name
    compareName := comp.name
    filesAdded := fc.added
    filesRemoved := fc.removed
    filesModified := fc.modified
    filesUnchanged := fc.unchanged
    sizeChangeBytes := mc.sizeChange
    sizeChangePercent := mc.sizeChangePercent
    linesChange := mc.linesChange
    linesChangePercent := mc.linesChangePercent
    classesChange := mc.classesChange
    functionsChange := mc.functionsChange
    dependenciesAdded := dc.added
    dependenciesRemoved := dc.removed
    newCircularDependencies := dc.newCircular
    resolvedCircularDependencies := dc.resolvedCircular
    similarityScore := calculateSimilarity base comp
    comparisonSummary := generateSummary fc mc dc }

/-- The spec's wording of the similarity score (spec-side definition for
the C3 refinement comparison): Jaccard index over the two relative-path
sets, `1.0` when both are empty, `0.0` when exactly one is, else
intersection over union rounded to three decimals. -/
def jaccardSpec (basePaths comparePaths : List String) : ℚ :=
  if basePaths = [] ∧ comparePaths = [] then 1
  else if basePaths = [] ∨ comparePaths = [] then 0
  else pyRound
    (((basePaths.filter (· ∈ comparePaths)).length : ℚ) /
      ((basePaths ++ comparePaths.filter (· ∉ basePaths)).length : ℚ)) 3

/-- Comparator fixture: a codebase with files `{a, b}`. -/
def exampleBaseAB : CodebaseMetadata :=
  ⟨"base-id", "base", 2, 30, [], [], 0, 0, 0, none,
   [⟨"a", "a", 10, ".py", none, 0, 0, [], ""⟩,
    ⟨"b", "b", 20, ".py", none, 0, 0, [], ""⟩], false⟩

/-- Comparator fixture: a codebase with files `{b, c}` (`b` unchanged). -/
def exampleCompBC : CodebaseMetadata :=
  ⟨"comp-id", "comp", 2, 50, [], [], 0, 0, 0, none,
   [⟨"b", "b", 20, ".py", none, 0, 0, [], ""⟩,
    ⟨"c", "c", 30, ".py", none, 0, 0, [], ""⟩], false⟩

/-! ## `metadata_builder.py` -/

/-- The dict returned by `_extract_python_metrics`. -/
structure PyMetrics where
  lines : Nat
  classes : Nat
  functions : Nat
  imports : List String
deriving Repr, DecidableEq

/-- `_extract_python_metrics`: `lines = content.count('\n') + 1`; on
`SyntaxError` the raw line count with zero classes/functions and no
imports; on a read failure (the outer `except`) all zeros.  Total — never
raises. -/
def extractPythonMetrics (c : Option PyContent) : PyMetrics :=
  match c with
  | none => ⟨0, 0, 0, []⟩
  | some c =>
    match c.parse with
    | .ok p => ⟨c.newlines + 1, p.classes, p.functions, p.imports⟩
    | .error _ => ⟨c.newlines + 1, 0, 0, []⟩

/-- `SUPPORTED_EXTENSIONS`. -/
def supportedExtensions : List String :=
  [".py", ".js", ".ts", ".jsx", ".tsx", ".java", ".cpp", ".c", ".h"]

/-- One file as `_scan_directory` sees it after the (excluded-directory
pruned) walk: forward-slash relative path, filename, lowercased suffix,
`stat` size, the content (for Python files), and the value
`compute_file_hash` returns. -/
structure ScanEntry where
  relPath : String
  filename : String
  ext : String
  sizeBytes : Nat
  content : Option PyContent
  contentHash : String
deriving Repr, DecidableEq

/-- The mutable accumulator of `MetadataBuilder` (reset by
`build_metadata`). -/
structure ScanState where
  filesMetadata : List FileMetadataStandard
  fileTypes : List (String × Nat)
  folderStructure : List (String × Nat)
  totalBytes : Nat
  totalLines : Nat
  totalClasses : Nat
  totalFunctions : Nat
  externalPackages : List String
deriving Repr, DecidableEq

/-- The reset state. -/
def ScanState.init : ScanState := ⟨[], [], [], 0, 0, 0, 0, []⟩

/-- `counter[k] += 1` on a `defaultdict(int)`. -/
def bumpCounter : List (String × Nat) → String → List (String × Nat)
  | [], k => [(k, 1)]
  | e :: rest, k =>
    if e.1 = k then (e.1, e.2 + 1) :: rest else e :: bumpCounter rest k

/-- `set.add`. -/
def setAdd (l : List String) (x : String) : List String :=
  if x ∈ l then l else l ++ [x]

/-- `folder_name`: the first component of the file's relative directory,
`"root"` for top-level files. -/
def folderOf (relPath : String) : String :=
  match pySplitSlash relPath with
  | [] => "root"
  | [_] => "root"
  | d :: _ :: _ => d

/-- The loop body of `_scan_directory` for one walked file: unsupported
extensions are skipped, Python files get metrics, hash, totals and
external-package tracking (`if not imp.startswith('.') and '.' not in imp`);
every supported file contributes a metadata row, its extension and folder
histogram buckets, and its byte size. -/
def scanFile (st : ScanState) (e : ScanEntry) : ScanState :=
  if e.ext ∈ supportedExtensions then
    let isPy := e.ext = ".py"
    let m := extractPythonMetrics e.content
    { filesMetadata := st.filesMetadata ++
        [⟨e.relPath, e.filename, e.sizeBytes, e.ext,
          if isPy then some m.lines else none,
          if isPy then m.classes else 0,
          if isPy then m.functions else 0,
          if isPy then m.imports else [],
          if isPy then e.contentHash else ""⟩]
      fileTypes := bumpCounter st.fileTypes e.ext
      folderStructure := bumpCounter st.folderStructure (folderOf e.relPath)
      totalBytes := st.totalBytes + e.sizeBytes
      totalLines := st.totalLines + (if isPy then m.lines else 0)
      totalClasses := st.totalClasses + (if isPy then m.classes else 0)
      totalFunctions := st.totalFunctions + (if isPy then m.functions else 0)
      externalPackages :=
        if isPy then
          m.imports.foldl (fun acc imp =>
            if pyStartsWith imp "." = false ∧ containsDot imp = false then
              setAdd acc imp
            else acc) st.externalPackages
        else st.externalPackages }
  else st

/-- `_scan_directory` over the walked entries. -/
def scanDirectory (entries : List ScanEntry) : ScanState :=
  entries.foldl scanFile ScanState.init

/-- `_build_dependency_metadata`: constant counts and the sorted
external-package set (the pydantic-failure branch is unreachable for these
literal arguments). -/
def buildDependencyMetadata (st : ScanState) : Option DependencyMetadata :=
  some ⟨0, [], [], [], pySorted st.externalPackages⟩

/-- `build_metadata` (wall-clock fields elided; `hasSummaries` is the
filesystem probe's result, passed in). -/
def buildMetadata (uploadId name : String) (hasSummaries : Bool)
    (entries : List ScanEntry) : CodebaseMetadata :=
  let st := scanDirectory entries
  { uploadId := uploadId
    name := name
    totalFiles := st.filesMetadata.length
    totalBytes := st.totalBytes
    fileTypes := st.fileTypes
    folderStructure := st.folderStructure
    totalLines := st.totalLines
    totalClasses := st.totalClasses
    totalFunctions := st.totalFunctions
    dependencies := buildDependencyMetadata st
    files := st.filesMetadata
    hasSummaries := hasSummaries }

/-! ## `routes/summary.py`: `_template_summary` -/

/-- The dict `_template_summary` returns (its `classes`/`functions` entry
lists are elided from the embedding — no verified claim reads them; on the
syntax-error path they are empty anyway). -/
structure TemplateSummary where
  imports : List String
  lineCount : Nat
  syntaxError : Option PySyntaxErr
deriving Repr, DecidableEq

/-- `_template_summary` on readable content: on `SyntaxError`, partial info
without AST analysis — empty token list plus the structured
`syntax_error {line, message}`. -/
def templateSummary (c : PyContent) : TemplateSummary :=
  match c.parse with
  | .ok p => ⟨p.summaryImports, c.splitlinesCount, none⟩
  | .error e => ⟨[], c.splitlinesCount, some e⟩

/-- C8 counterexample tree: `utils.py` plus `main.py` importing `utils`. -/
def utilsMainTree : List ScanEntry :=
  [⟨"utils.py", "utils.py", ".py", 1, some ⟨0, 1, .ok ⟨[], [], 0, 0⟩⟩, ""⟩,
   ⟨"main.py", "main.py", ".py", 1, some ⟨0, 1, .ok ⟨["utils"], ["utils"], 0, 0⟩⟩, ""⟩]

/-! ## Theorems -/

theorem adjGet_nil (u : String) : adjGet [] u = [] := rfl

theorem adjGet_cons (e : String × List String) (rest : Adj) (u : String) :
    adjGet (e :: rest) u = if e.1 = u then e.2 else adjGet rest u := by
  by_cases h : e.1 = u
  · simp [adjGet, List.find?_cons, h]
  · simp [adjGet, List.find?_cons, h]

theorem adjGet_adjAdd (g : Adj) (k v u : String) :
    adjGet (adjAdd g k v) u =
      if u = k then
        (if v ∈ adjGet g k then adjGet g k else adjGet g k ++ [v])
      else adjGet g u := by
  induction g with
  | nil =>
    by_cases h : u = k
    · subst h
      simp [adjAdd, adjGet_cons, adjGet_nil]
    · have h' : ¬k = u := fun h'' => h h''.symm
      simp [adjAdd, adjGet_cons, adjGet_nil, h, h']
  | cons e rest ih =>
    by_cases hek : e.1 = k
    · subst hek
      by_cases h : u = e.1
      · subst h
        by_cases hv : v ∈ e.2 <;>
          simp [adjAdd, adjGet_cons, hv]
      · have h' : ¬e.1 = u := fun h'' => h h''.symm
        by_cases hv : v ∈ e.2 <;>
          simp [adjAdd, adjGet_cons, hv, h, h']
    · by_cases heu : e.1 = u
      · subst heu
        simp [adjAdd, adjGet_cons, hek]
      · simp [adjAdd, adjGet_cons, hek, heu, ih]

theorem mem_adjGet_adjAdd {g : Adj} {k v u x : String} :
    x ∈ adjGet (adjAdd g k v) u ↔ x ∈ adjGet g u ∨ (u = k ∧ x = v) := by
  rw [adjGet_adjAdd]
  by_cases h : u = k
  · subst h
    by_cases hv : v ∈ adjGet g u
    · simp only [if_pos rfl, if_pos hv, true_and]
      constructor
      · exact fun hx => Or.inl hx
      · rintro (hx | rfl)
        · exact hx
        · exact hv
    · simp [hv]
  · simp [h]

theorem transposed_processImport {st : RelState} (mmap : StrMap) (fp imp : String)
    (h : Transposed st) : Transposed (processImport mmap fp st imp) := by
  unfold processImport
  cases resolveImport imp mmap with
  | some tgt =>
    intro s t
    simp only [mem_adjGet_adjAdd, h s t]
    tauto
  | none =>
    by_cases hl : isLocalImport imp
    · simp only [if_pos hl]
      exact h
    · simp only [if_neg hl]
      exact h

theorem transposed_foldl_imports {mmap : StrMap} {fp : String} (imps : List String) :
    ∀ st : RelState, Transposed st →
      Transposed (imps.foldl (processImport mmap fp) st) := by
  induction imps with
  | nil => exact fun _ h => h
  | cons i rest ih =>
    intro st h
    exact ih _ (transposed_processImport mmap fp i h)

theorem transposed_buildRelationships (filesData : List (String × List String)) :
    Transposed (buildRelationships filesData) := by
  unfold buildRelationships
  generalize buildModuleMapping (filesData.map (·.1)) = mmap
  have init : Transposed RelState.init := by
    intro s t
    simp [RelState.init, adjGet]
  revert init
  generalize RelState.init = st
  induction filesData generalizing st with
  | nil => exact fun h => h
  | cons e rest ih =>
    intro h
    exact ih _ (transposed_foldl_imports e.2 st h)

/-- C1: in every graph produced by `build_graph`, the reverse adjacency is
the exact transpose of the forward adjacency: for all files `source` and
`target`, `target ∈ forward[source] ↔ source ∈ reverse[target]`. -/
theorem buildGraph_reverse_is_transpose (filesData : List (String × List String))
    (source target : String) :
    target ∈ adjGet (buildRelationships filesData).graph source ↔
      source ∈ adjGet (buildRelationships filesData).reverseGraph target :=
  transposed_buildRelationships filesData source target

theorem missingImports_processImport (mmap : StrMap) (fp : String)
    (st : RelState) (imp : String) :
    (processImport mmap fp st imp).missingImports =
      st.missingImports ++ (if missingLocal mmap imp then [(fp, imp)] else []) := by
  unfold processImport missingLocal
  cases h : resolveImport imp mmap with
  | some tgt => simp [h]
  | none =>
    by_cases hl : isLocalImport imp <;> simp [h, hl]

theorem missingImports_foldl_imports (mmap : StrMap) (fp : String)
    (imps : List String) :
    ∀ st : RelState,
      (imps.foldl (processImport mmap fp) st).missingImports =
        st.missingImports ++
          ((imps.filter (missingLocal mmap)).map (fun i => (fp, i))) := by
  induction imps with
  | nil => simp
  | cons i rest ih =>
    intro st
    rw [List.foldl_cons, ih, missingImports_processImport]
    by_cases h : missingLocal mmap i <;> simp [h, List.filter_cons]

theorem missingImports_buildRelationships (filesData : List (String × List String)) :
    (buildRelationships filesData).missingImports =
      (filesData.map (fun e =>
        ((e.2.filter (missingLocal (buildModuleMapping (filesData.map (·.1))))).map
          (fun i => (e.1, i))))).flatten := by
  unfold buildRelationships
  generalize buildModuleMapping (filesData.map (·.1)) = mmap
  suffices h : ∀ (l : List (String × List String)) (st : RelState),
      (l.foldl (fun st e => e.2.foldl (processImport mmap e.1) st) st).missingImports =
        st.missingImports ++
          (l.map (fun e => ((e.2.filter (missingLocal mmap)).map
            (fun i => (e.1, i))))).flatten by
    simpa [RelState.init] using h filesData RelState.init
  intro l
  induction l with
  | nil => simp
  | cons e rest ih =>
    intro st
    rw [List.foldl_cons, ih, missingImports_foldl_imports]
    simp

/-- C7: a `{file, import}` record lands in `missing_imports` iff the token
occurs in that file's imports, fails to resolve, and its first dotted
component is one of the configured local-looking names; `numpy` is
classified external and `app.nonexistent.module` local. -/
theorem missingImports_characterization :
    (∀ (filesData : List (String × List String)) (fp imp : String),
      (fp, imp) ∈ (buildRelationships filesData).missingImports ↔
        ∃ imps, (fp, imps) ∈ filesData ∧ imp ∈ imps ∧
          resolveImport imp (buildModuleMapping (filesData.map (·.1))) = none ∧
          isLocalImport imp = true) ∧
    isLocalImport "numpy" = false ∧ isLocalImport "app.nonexistent.module" = true := by
  refine ⟨fun filesData fp imp => ?_, by decide, by decide⟩
  rw [missingImports_buildRelationships, List.mem_flatten]
  constructor
  · rintro ⟨l, hl, hmem⟩
    rw [List.mem_map] at hl
    obtain ⟨e, he, rfl⟩ := hl
    rw [List.mem_map] at hmem
    obtain ⟨i, hi, heq⟩ := hmem
    rw [List.mem_filter] at hi
    obtain ⟨hi2, hml⟩ := hi
    simp only [missingLocal, Bool.and_eq_true, Option.isNone_iff_eq_none] at hml
    injection heq with h1 h2
    subst h1
    subst h2
    exact ⟨e.2, by simpa using he, hi2, hml.1, hml.2⟩
  · rintro ⟨imps, hmem, hi, hres, hloc⟩
    refine ⟨(imps.filter (missingLocal
        (buildModuleMapping (filesData.map (·.1))))).map (fun i => (fp, i)),
      List.mem_map.mpr ⟨(fp, imps), hmem, rfl⟩, ?_⟩
    rw [List.mem_map]
    exact ⟨imp, List.mem_filter.mpr ⟨hi, by simp [missingLocal, hres, hloc]⟩, rfl⟩

theorem mapContains_eq_isSome (m : StrMap) (k : String) :
    mapContains m k = (mapLookup m k).isSome := by
  simp [mapContains, mapLookup]

theorem mapLookup_nil (k : String) : mapLookup [] k = none := rfl

theorem mapLookup_cons (e : String × String) (rest : StrMap) (k : String) :
    mapLookup (e :: rest) k = if e.1 = k then some e.2 else mapLookup rest k := by
  by_cases h : e.1 = k
  · simp [mapLookup, List.find?_cons, h]
  · simp [mapLookup, List.find?_cons, h]

theorem mapLookup_append (m₁ m₂ : StrMap) (k : String) :
    mapLookup (m₁ ++ m₂) k =
      (mapLookup m₁ k).elim (mapLookup m₂ k) (fun v => some v) := by
  induction m₁ with
  | nil => simp [mapLookup_nil]
  | cons e rest ih =>
    by_cases h : e.1 = k <;> simp [mapLookup_cons, h, ih]

theorem mapLookup_mapSet (m : StrMap) (k v k' : String) :
    mapLookup (mapSet m k v) k' =
      if k' = k then some v else mapLookup m k' := by
  induction m with
  | nil =>
    by_cases h : k' = k
    · subst h; simp [mapSet, mapLookup_cons]
    · have h' : ¬k = k' := fun h'' => h h''.symm
      simp [mapSet, mapLookup_cons, h, h']
  | cons e rest ih =>
    by_cases hek : e.1 = k
    · subst hek
      by_cases h : k' = e.1
      · subst h; simp [mapSet, mapLookup_cons]
      · have h' : ¬e.1 = k' := fun h'' => h h''.symm
        simp [mapSet, mapLookup_cons, h, h']
    · by_cases hek' : e.1 = k'
      · subst hek'
        simp [mapSet, mapLookup_cons, hek]
      · simp [mapSet, mapLookup_cons, hek, hek', ih]

theorem mapLookup_mapSetIfAbsent (m : StrMap) (k v k' : String) :
    mapLookup (mapSetIfAbsent m k v) k' =
      if k' = k then some ((mapLookup m k).getD v) else mapLookup m k' := by
  unfold mapSetIfAbsent
  rw [mapContains_eq_isSome]
  cases hm : mapLookup m k with
  | some w =>
    simp only [Option.isSome_some, if_true]
    by_cases h : k' = k
    · subst h; simp [hm]
    · simp [h]
  | none =>
    simp only [Option.isSome_none, Bool.false_eq_true, if_false]
    rw [mapLookup_append]
    by_cases h : k' = k
    · subst h; simp [hm, mapLookup_cons]
    · have h' : ¬k = k' := fun h'' => h h''.symm
      cases hk' : mapLookup m k' <;>
        simp [hk', mapLookup_cons, mapLookup_nil, h, h']

theorem mapLookup_setIfAbsent_preserved {m : StrMap} {k2 v : String} (k w : String)
    (h : mapLookup m k2 = some v) :
    mapLookup (mapSetIfAbsent m k w) k2 = some v := by
  rw [mapLookup_mapSetIfAbsent]
  by_cases hk : k2 = k
  · subst hk; simp [h]
  · simp [hk, h]

theorem registerSuffixes_preserved {k2 v : String} (parts : List String) (fp : String)
    (m : StrMap) (h : mapLookup m k2 = some v) :
    mapLookup (registerSuffixes parts fp m) k2 = some v := by
  unfold registerSuffixes
  generalize List.range parts.length = is
  induction is generalizing m with
  | nil => exact h
  | cons i rest ih => exact ih _ (mapLookup_setIfAbsent_preserved _ _ h)

theorem mapContains_setIfAbsent_self (m : StrMap) (k w : String) :
    mapContains (mapSetIfAbsent m k w) k = true := by
  rw [mapContains_eq_isSome, mapLookup_mapSetIfAbsent]
  simp

theorem mapContains_setIfAbsent_mono {m : StrMap} {k : String} (k2 w : String)
    (h : mapContains m k = true) :
    mapContains (mapSetIfAbsent m k2 w) k = true := by
  rw [mapContains_eq_isSome] at h ⊢
  obtain ⟨v, hv⟩ := Option.isSome_iff_exists.mp h
  rw [mapLookup_setIfAbsent_preserved k2 w hv]
  rfl

theorem foldl_setIfAbsent_contains_mono (fp : String) (f : Nat → String)
    {k : String} (is : List Nat) :
    ∀ m : StrMap, mapContains m k = true →
      mapContains (is.foldl (fun m j => mapSetIfAbsent m (f j) fp) m) k = true := by
  induction is with
  | nil => exact fun _ h => h
  | cons j rest ih =>
    intro m h
    exact ih _ (mapContains_setIfAbsent_mono _ _ h)

theorem foldl_setIfAbsent_contains_mem (fp : String) (f : Nat → String)
    (is : List Nat) :
    ∀ (m : StrMap) (i : Nat), i ∈ is →
      mapContains (is.foldl (fun m j => mapSetIfAbsent m (f j) fp) m) (f i) = true := by
  induction is with
  | nil => intro _ _ h; exact absurd h (List.not_mem_nil _)
  | cons j rest ih =>
    intro m i hi
    rcases List.mem_cons.mp hi with h | h
    · subst h
      exact foldl_setIfAbsent_contains_mono fp f rest _
        (mapContains_setIfAbsent_self m (f i) fp)
    · exact ih _ i h

theorem registerSuffixes_contains (parts : List String) (fp : String) (m : StrMap)
    (i : Nat) (hi : i < parts.length) :
    mapContains (registerSuffixes parts fp m) (joinDot (parts.drop i)) = true := by
  unfold registerSuffixes
  exact foldl_setIfAbsent_contains_mem fp (fun j => joinDot (parts.drop j)) _ m i
    (List.mem_range.mpr hi)

theorem mapLookup_mapSet_val {m : StrMap} {k v k2 w : String}
    (h : mapLookup (mapSet m k v) k2 = some w) :
    mapLookup m k2 = some w ∨ w = v := by
  rw [mapLookup_mapSet] at h
  by_cases hk : k2 = k
  · rw [if_pos hk] at h
    exact Or.inr (Option.some_injective _ h).symm
  · rw [if_neg hk] at h
    exact Or.inl h

theorem mapLookup_setIfAbsent_val {m : StrMap} {k v k2 w : String}
    (h : mapLookup (mapSetIfAbsent m k v) k2 = some w) :
    mapLookup m k2 = some w ∨ w = v := by
  rw [mapLookup_mapSetIfAbsent] at h
  by_cases hk : k2 = k
  · rw [if_pos hk] at h
    subst hk
    cases hm : mapLookup m k2 with
    | some u =>
      rw [hm] at h
      injection h with h3
      simp only [Option.getD_some] at h3
      subst h3
      exact Or.inl rfl
    | none => rw [hm] at h; simp at h; exact Or.inr h.symm
  · rw [if_neg hk] at h
    exact Or.inl h

theorem registerSuffixes_val {k2 w : String} (parts : List String) (fp : String) :
    ∀ m : StrMap, mapLookup (registerSuffixes parts fp m) k2 = some w →
      mapLookup m k2 = some w ∨ w = fp := by
  unfold registerSuffixes
  generalize List.range parts.length = is
  induction is with
  | nil => exact fun _ h => Or.inl h
  | cons i rest ih =>
    intro m h
    rcases ih _ h with h2 | h2
    · exact mapLookup_setIfAbsent_val h2
    · exact Or.inr h2

theorem registerFile_val {m : StrMap} {fp k w : String}
    (h : mapLookup (registerFile m fp) k = some w) :
    mapLookup m k = some w ∨ w = fp := by
  unfold registerFile at h
  rcases registerSuffixes_val _ _ _ h with h2 | h2
  · exact mapLookup_mapSet_val h2
  · exact Or.inr h2

theorem registerFile_preserves {m : StrMap} {fp k v : String}
    (h : mapLookup m k = some v) (hne : k ≠ moduleName fp) :
    mapLookup (registerFile m fp) k = some v := by
  unfold registerFile
  apply registerSuffixes_preserved
  rw [mapLookup_mapSet, if_neg hne]
  exact h

theorem registerFile_contains_suffix (m : StrMap) (fp : String) (i : Nat)
    (hi : i < (pySplitDot (moduleName fp)).length) :
    mapContains (registerFile m fp)
      (joinDot ((pySplitDot (moduleName fp)).drop i)) = true := by
  unfold registerFile
  exact registerSuffixes_contains _ _ _ i hi

theorem splitCharAux_ne_nil (sep : Char) (cs : List Char) :
    splitCharAux sep cs ≠ [] := by
  cases cs with
  | nil => simp [splitCharAux]
  | cons c cs =>
    simp only [splitCharAux]
    by_cases h : c = sep <;> simp [h]

theorem charJoin_splitCharAux (sep : Char) (cs : List Char) :
    charJoin sep (splitCharAux sep cs) = cs := by
  induction cs with
  | nil => rfl
  | cons c cs ih =>
    obtain ⟨r0, rs, hr⟩ : ∃ r0 rs, splitCharAux sep cs = r0 :: rs := by
      cases h : splitCharAux sep cs with
      | nil => exact absurd h (splitCharAux_ne_nil sep cs)
      | cons a b => exact ⟨a, b, rfl⟩
    rw [hr] at ih
    simp only [splitCharAux, hr]
    by_cases hc : c = sep
    · subst hc
      simp only [if_pos rfl, charJoin]
      simp [ih]
    · simp only [if_neg hc, List.headD_cons, List.tail_cons]
      cases rs with
      | nil =>
        simp only [charJoin] at ih ⊢
        rw [ih]
      | cons s ss =>
        simp only [charJoin] at ih ⊢
        rw [List.cons_append, ih]

theorem joinDot_map_mk (l : List (List Char)) :
    joinDot (l.map String.mk) = String.mk (charJoin '.' l) := by
  induction l with
  | nil => rfl
  | cons x ys ih =>
    cases ys with
    | nil => rfl
    | cons y xs =>
      simp only [List.map_cons, joinDot, charJoin]
      simp only [List.map_cons] at ih
      rw [ih]
      show String.mk ((x ++ ('.' :: List.nil)) ++ charJoin '.' (y :: xs)) =
        String.mk (x ++ '.' :: charJoin '.' (y :: xs))
      rw [List.append_assoc]
      rfl

theorem joinDot_pySplitDot (s : String) : joinDot (pySplitDot s) = s := by
  unfold pySplitDot
  rw [joinDot_map_mk, charJoin_splitCharAux]

theorem pySplitDot_ne_nil (s : String) : pySplitDot s ≠ [] := by
  unfold pySplitDot
  simp [splitCharAux_ne_nil]

theorem resolveImport_eq_spec (imp : String) (m : StrMap) :
    resolveImport imp m = resolveImportSpec imp m := by
  unfold resolveImport resolveImportSpec
  cases hm : mapLookup m imp with
  | some f => rfl
  | none =>
    obtain ⟨p0, ps, hp⟩ : ∃ p0 ps, pySplitDot imp = p0 :: ps := by
      cases h : pySplitDot imp with
      | nil => exact absurd h (pySplitDot_ne_nil imp)
      | cons a b => exact ⟨a, b, rfl⟩
    have hlen : (pySplitDot imp).length = ps.length + 1 := by rw [hp]; rfl
    rw [hlen]
    simp only [descRange, resolvePrefixes, Nat.add_sub_cancel]
    have htake : (pySplitDot imp).take (ps.length + 1) = pySplitDot imp := by
      rw [hp]
      exact List.take_of_length_le (by simp)
    rw [htake, joinDot_pySplitDot, hm]

/-- C4: registration maps the file's dotted name and registers every
right-aligned suffix of it; the guarded suffix pass never overwrites an
existing mapping (first-registered wins — only the unconditional
primary-name assignment `module_map[module_name] = file_path` can replace
an entry, hence the `k ≠ moduleName fp` proviso); every binding produced by
registration maps to a registered file; and resolution returns the exact
dotted-name match if present, else the mapping of the first prefix obtained
by progressively stripping trailing components, else `none`
(`resolveImportSpec`, the spec-side description). -/
theorem moduleMapping_registration_resolution :
    (∀ (m : StrMap) (fp k v : String), mapLookup m k = some v →
        k ≠ moduleName fp → mapLookup (registerFile m fp) k = some v) ∧
    (∀ (m : StrMap) (fp : String) (i : Nat),
        i < (pySplitDot (moduleName fp)).length →
        mapContains (registerFile m fp)
          (joinDot ((pySplitDot (moduleName fp)).drop i)) = true) ∧
    (∀ (m : StrMap) (fp k w : String),
        mapLookup (registerFile m fp) k = some w →
        mapLookup m k = some w ∨ w = fp) ∧
    (∀ (imp : String) (m : StrMap), resolveImport imp m = resolveImportSpec imp m) :=
  ⟨fun _ _ _ _ h hne => registerFile_preserves h hne,
   fun m fp i hi => registerFile_contains_suffix m fp i hi,
   fun _ _ _ _ h => registerFile_val h,
   fun imp m => resolveImport_eq_spec imp m⟩

theorem moduleMapping_registration_resolution_witness :
    mapLookup (registerFile [("x", "x.py")] "app/b.py") "x" = some "x.py" ∧
    mapContains (registerFile [] "app/b.py")
      (joinDot ((pySplitDot (moduleName "app/b.py")).drop 0)) = true ∧
    (mapLookup [] "app.b" = some "app/b.py" ∨ ("app/b.py" : String) = "app/b.py") ∧
    resolveImport "app.b.c" (buildModuleMapping ["app/b.py"]) =
      resolveImportSpec "app.b.c" (buildModuleMapping ["app/b.py"]) :=
  ⟨moduleMapping_registration_resolution.1 [("x", "x.py")] "app/b.py" "x" "x.py"
      (by decide) (by decide),
   moduleMapping_registration_resolution.2.1 [] "app/b.py" 0 (by decide),
   moduleMapping_registration_resolution.2.2.1 [] "app/b.py" "app.b" "app/b.py"
      (by decide),
   moduleMapping_registration_resolution.2.2.2 "app.b.c"
      (buildModuleMapping ["app/b.py"])⟩

theorem pyIndex_drop {x : String} {l : List String} {i : Nat}
    (h : pyIndex x l = some i) : ∃ t, l.drop i = x :: t := by
  induction l generalizing i with
  | nil => simp [pyIndex] at h
  | cons y ys ih =>
    by_cases hy : y = x
    · simp only [pyIndex, if_pos hy] at h
      injection h with h
      subst h
      subst hy
      exact ⟨ys, rfl⟩
    · simp only [pyIndex, if_neg hy] at h
      cases hj : pyIndex x ys with
      | none =>
        rw [hj, Option.map_none'] at h
        cases h
      | some j =>
        rw [hj] at h
        simp only [Option.map_some'] at h
        injection h with h
        subst h
        obtain ⟨t, ht⟩ := ih hj
        exact ⟨t, by simpa using ht⟩

theorem dfsGo_acyclic (g : Adj)
    (hacyc : ∀ n, ¬ Relation.TransGen (edge g) n n) :
    ∀ (fuel : Nat) (nbs : List String) (node : String) (path : List String)
      (st : DfsState),
      (∀ r ∈ st.recStack, Relation.ReflTransGen (edge g) r node) →
      (∀ nb ∈ nbs, edge g node nb) →
      ∃ vis2, dfsGo g fuel nbs path node st =
        .ok (false, ⟨vis2, st.recStack.erase node, st.cycles⟩) := by
  intro fuel
  induction fuel with
  | zero =>
    intro nbs node path st _ _
    cases nbs with
    | nil => exact ⟨st.visited, rfl⟩
    | cons nb rest => exact ⟨st.visited, rfl⟩
  | succ fuel ih =>
    intro nbs node path st h1 h2
    cases nbs with
    | nil => exact ⟨st.visited, rfl⟩
    | cons nb rest =>
      simp only [dfsGo]
      by_cases hv : nb ∈ st.visited
      · rw [if_pos hv]
        by_cases hr : nb ∈ st.recStack
        · exact absurd
            (Relation.TransGen.tail' (h1 nb hr) (h2 nb (List.mem_cons_self _ _)))
            (hacyc nb)
        · rw [if_neg hr]
          exact ih rest node path st h1 (fun x hx => h2 x (List.mem_cons_of_mem _ hx))
      · rw [if_neg hv]
        have hedge : edge g node nb := h2 nb (List.mem_cons_self _ _)
        obtain ⟨vis2, heq⟩ := ih (adjGet g nb) nb (path ++ [nb])
          ⟨nb :: st.visited, nb :: st.recStack, st.cycles⟩
          (by
            intro r hrm
            rcases List.mem_cons.mp hrm with rfl | hrm
            · exact Relation.ReflTransGen.refl
            · exact Relation.ReflTransGen.tail (h1 r hrm) hedge)
          (fun x hx => hx)
        rw [heq]
        simp only [List.erase_cons_head]
        exact ih rest node path ⟨vis2, st.recStack, st.cycles⟩ h1
          (fun x hx => h2 x (List.mem_cons_of_mem _ hx))

theorem detectLoop_acyclic (g : Adj)
    (hacyc : ∀ n, ¬ Relation.TransGen (edge g) n n) (fuel : Nat) :
    ∀ (roots : List String) (st : DfsState), st.recStack = [] →
      ∃ vis2, detectLoop g fuel roots st = .ok ⟨vis2, [], st.cycles⟩ := by
  intro roots
  induction roots with
  | nil =>
    intro st hrec
    exact ⟨st.visited, by cases st; simp_all [detectLoop]⟩
  | cons r rest ih =>
    intro st hrec
    simp only [detectLoop]
    by_cases hv : r ∈ st.visited
    · rw [if_pos hv]
      exact ih st hrec
    · rw [if_neg hv]
      obtain ⟨vis2, heq⟩ := dfsGo_acyclic g hacyc fuel (adjGet g r) r [r]
        ⟨r :: st.visited, r :: st.recStack, st.cycles⟩
        (by
          intro x hx
          rw [hrec] at hx
          rcases List.mem_cons.mp hx with rfl | hx
          · exact Relation.ReflTransGen.refl
          · simp at hx)
        (fun x hx => hx)
      rw [heq]
      simp only [List.erase_cons_head, hrec]
      exact ih ⟨vis2, [], st.cycles⟩ rfl

theorem detectCircular_acyclic (g : Adj)
    (hacyc : ∀ n, ¬ Relation.TransGen (edge g) n n) :
    detectCircular g = .ok [] := by
  unfold detectCircular
  obtain ⟨vis2, heq⟩ :=
    detectLoop_acyclic g hacyc (totalFuel g) (g.map (·.1)) ⟨[], [], []⟩ rfl
  rw [heq]
  rfl

theorem dfsGo_cycles (g : Adj) :
    ∀ (fuel : Nat) (nbs : List String) (node : String) (path : List String)
      (st : DfsState) (found : Bool) (st2 : DfsState),
      dfsGo g fuel nbs path node st = .ok (found, st2) →
      (∀ nb ∈ nbs, edge g node nb) →
      List.Chain' (edge g) path →
      path.getLast? = some node →
      path.Nodup →
      (∀ x ∈ path, x ∈ st.visited) →
      ((∀ c ∈ st2.cycles, c ∈ st.cycles ∨ CycleShape g c) ∧
       (found = false → st2.cycles = st.cycles) ∧
       st2.cycles.length ≤ st.cycles.length + 1 ∧
       (∀ x ∈ st.visited, x ∈ st2.visited)) := by
  intro fuel
  induction fuel with
  | zero =>
    intro nbs node path st found st2 heq _ _ _ _ _
    cases nbs with
    | nil =>
      simp only [dfsGo] at heq
      injection heq with h
      injection h with hf hst
      subst hf
      subst hst
      exact ⟨fun c hc => Or.inl hc, fun _ => rfl, Nat.le_succ _, fun x hx => hx⟩
    | cons nb rest =>
      simp only [dfsGo] at heq
      injection heq with h
      injection h with hf hst
      subst hf
      subst hst
      exact ⟨fun c hc => Or.inl hc, fun _ => rfl, Nat.le_succ _, fun x hx => hx⟩
  | succ fuel ih =>
    intro nbs node path st found st2 heq h2 hchain hlast hnodup hsub
    cases nbs with
    | nil =>
      simp only [dfsGo] at heq
      injection heq with h
      injection h with hf hst
      subst hf
      subst hst
      exact ⟨fun c hc => Or.inl hc, fun _ => rfl, Nat.le_succ _, fun x hx => hx⟩
    | cons nb rest =>
      simp only [dfsGo] at heq
      by_cases hv : nb ∈ st.visited
      · rw [if_pos hv] at heq
        by_cases hr : nb ∈ st.recStack
        · rw [if_pos hr] at heq
          cases hidx : pyIndex nb path with
          | none => rw [hidx] at heq; cases heq
          | some i =>
            rw [hidx] at heq
            injection heq with h
            injection h with hf hst
            subst hf
            subst hst
            obtain ⟨t, ht⟩ := pyIndex_drop hidx
            refine ⟨?_, ?_, by simp, fun x hx => hx⟩
            · intro c hc
              rcases List.mem_append.mp hc with hc | hc
              · exact Or.inl hc
              · right
                have hc' : c = path.drop i ++ [nb] := by simpa using hc
                subst hc'
                refine ⟨nb, t, by rw [ht]; rfl, ?_, ?_⟩
                · apply List.Chain'.append (hchain.drop i) (List.chain'_singleton nb)
                  intro x hx y hy
                  have hlast2 : (path.drop i).getLast? = some node := by
                    conv at hlast => rw [← List.take_append_drop i path]
                    rw [ht, List.getLast?_append_cons] at hlast
                    rw [ht]
                    exact hlast
                  rw [hlast2] at hx
                  simp only [Option.mem_def, Option.some_inj] at hx
                  simp only [List.head?_cons, Option.mem_def, Option.some_inj] at hy
                  subst hx
                  subst hy
                  exact h2 nb (List.mem_cons_self _ _)
                · have hsl : (path.drop i).Nodup :=
                    hnodup.sublist (List.drop_sublist i path)
                  rw [ht] at hsl
                  exact hsl
            · intro hfalse
              cases hfalse
        · rw [if_neg hr] at heq
          exact ih rest node path st found st2 heq
            (fun x hx => h2 x (List.mem_cons_of_mem _ hx)) hchain hlast hnodup hsub
      · rw [if_neg hv] at heq
        have hedge : edge g node nb := h2 nb (List.mem_cons_self _ _)
        cases hrec : dfsGo g fuel (adjGet g nb) (path ++ [nb]) nb
            ⟨nb :: st.visited, nb :: st.recStack, st.cycles⟩ with
        | error e => rw [hrec] at heq; cases heq
        | ok r =>
          obtain ⟨found1, st3⟩ := r
          rw [hrec] at heq
          have hchain1 : List.Chain' (edge g) (path ++ [nb]) := by
            apply List.Chain'.append hchain (List.chain'_singleton nb)
            intro x hx y hy
            rw [hlast] at hx
            simp only [Option.mem_def, Option.some_inj] at hx
            simp only [List.head?_cons, Option.mem_def, Option.some_inj] at hy
            subst hx
            subst hy
            exact hedge
          have hlast1 : (path ++ [nb]).getLast? = some nb := by
            rw [List.getLast?_append_cons]
            rfl
          have hnodup1 : (path ++ [nb]).Nodup := by
            rw [List.nodup_append]
            refine ⟨hnodup, List.nodup_singleton nb, ?_⟩
            intro x hx hy
            rw [List.mem_singleton] at hy
            subst hy
            exact hv (hsub x hx)
          have hsub1 : ∀ x ∈ path ++ [nb],
              x ∈ (⟨nb :: st.visited, nb :: st.recStack, st.cycles⟩ : DfsState).visited := by
            intro x hx
            rcases List.mem_append.mp hx with hx | hx
            · exact List.mem_cons_of_mem _ (hsub x hx)
            · simp only [List.mem_singleton] at hx
              subst hx
              exact List.mem_cons_self _ _
          obtain ⟨A1, A2, A3, A4⟩ := ih (adjGet g nb) nb (path ++ [nb])
            ⟨nb :: st.visited, nb :: st.recStack, st.cycles⟩ found1 st3 hrec
            (fun x hx => hx) hchain1 hlast1 hnodup1 hsub1
          cases found1 with
          | true =>
            simp only [if_true] at heq
            injection heq with h
            injection h with hf hst
            subst hf
            subst hst
            refine ⟨A1, ?_, A3, ?_⟩
            · intro hfalse
              simp at hfalse
            · intro x hx
              exact A4 x (List.mem_cons_of_mem _ hx)
          | false =>
            simp only [if_false] at heq
            have hA2 : st3.cycles = st.cycles := A2 rfl
            obtain ⟨B1, B2, B3, B4⟩ := ih rest node path st3 found st2 heq
              (fun x hx => h2 x (List.mem_cons_of_mem _ hx)) hchain hlast hnodup
              (fun x hx => A4 x (List.mem_cons_of_mem _ (hsub x hx)))
            refine ⟨?_, ?_, ?_, ?_⟩
            · intro c hc
              rcases B1 c hc with hcc | hcc
              · exact Or.inl (hA2 ▸ hcc)
              · exact Or.inr hcc
            · intro hf
              rw [B2 hf, hA2]
            · calc st2.cycles.length ≤ st3.cycles.length + 1 := B3
                _ = st.cycles.length + 1 := by rw [hA2]
            · exact fun x hx => B4 x (A4 x (List.mem_cons_of_mem _ hx))

theorem detectLoop_cycles (g : Adj) (fuel : Nat) :
    ∀ (roots : List String) (st st2 : DfsState),
      detectLoop g fuel roots st = .ok st2 →
      ((∀ c ∈ st2.cycles, c ∈ st.cycles ∨ CycleShape g c) ∧
       st2.cycles.length ≤ st.cycles.length + roots.length) := by
  intro roots
  induction roots with
  | nil =>
    intro st st2 heq
    simp only [detectLoop] at heq
    injection heq with h
    subst h
    exact ⟨fun c hc => Or.inl hc, by simp⟩
  | cons r rest ih =>
    intro st st2 heq
    simp only [detectLoop] at heq
    by_cases hv : r ∈ st.visited
    · rw [if_pos hv] at heq
      obtain ⟨C1, C2⟩ := ih st st2 heq
      exact ⟨C1, le_trans C2 (by simp only [List.length_cons]; omega)⟩
    · rw [if_neg hv] at heq
      cases hrec : dfsGo g fuel (adjGet g r) [r] r
          ⟨r :: st.visited, r :: st.recStack, st.cycles⟩ with
      | error e => rw [hrec] at heq; cases heq
      | ok p =>
        obtain ⟨found1, st3⟩ := p
        rw [hrec] at heq
        obtain ⟨A1, A2, A3, A4⟩ := dfsGo_cycles g fuel (adjGet g r) r [r]
          ⟨r :: st.visited, r :: st.recStack, st.cycles⟩ found1 st3 hrec
          (fun x hx => hx) (List.chain'_singleton r) rfl (List.nodup_singleton r)
          (by
            intro x hx
            rw [List.mem_singleton] at hx
            subst hx
            exact List.mem_cons_self _ _)
        obtain ⟨B1, B2⟩ := ih st3 st2 heq
        constructor
        · intro c hc
          rcases B1 c hc with hcc | hcc
          · exact A1 c hcc
          · exact Or.inr hcc
        · calc st2.cycles.length ≤ st3.cycles.length + rest.length := B2
            _ ≤ (st.cycles.length + 1) + rest.length := Nat.add_le_add_right A3 _
            _ = st.cycles.length + (r :: rest).length := by
                simp only [List.length_cons]
                omega

theorem detectCircular_cycles (g : Adj) (cycles : List (List String))
    (heq : detectCircular g = .ok cycles) :
    (∀ c ∈ cycles, CycleShape g c) ∧ cycles.length ≤ g.length := by
  unfold detectCircular at heq
  cases hdl : detectLoop g (totalFuel g) (g.map (·.1)) ⟨[], [], []⟩ with
  | error e => rw [hdl] at heq; cases heq
  | ok st2 =>
    rw [hdl] at heq
    simp only [Except.map] at heq
    injection heq with h
    subst h
    obtain ⟨C1, C2⟩ := detectLoop_cycles g (totalFuel g) (g.map (·.1))
      ⟨[], [], []⟩ st2 hdl
    constructor
    · intro c hc
      rcases C1 c hc with hcc | hcc
      · simp at hcc
      · exact hcc
    · simpa using C2

theorem rank_lt_of_transGen {g : Adj} {f : String → Nat}
    (h : ∀ x y, edge g x y → f y < f x) {a b : String}
    (ht : Relation.TransGen (edge g) a b) : f b < f a := by
  induction ht with
  | single h1 => exact h _ _ h1
  | tail _ hbc ih => exact lt_trans (h _ _ hbc) ih

/-- C5: on the three-file import cycle `a.py → b.py → c.py → a.py`,
`build_graph` reports exactly one cycle, whose member set is
`{a.py, b.py, c.py}`; on any acyclic forward adjacency the detector
reports zero cycles; and every reported cycle is the slice of the DFS path
from the repeated node's first occurrence through the repeated node — a
closed edge-walk repeating only its end node — with at most one cycle
recorded per traversal branch (hence at most one per adjacency key). -/
theorem cycleDetector_spec :
    ((buildGraph cyclicTriangle).map (·.circularDependencies) =
        .ok [["a.py", "b.py", "c.py", "a.py"]] ∧
      (["a.py", "b.py", "c.py", "a.py"] : List String).toFinset =
        (["a.py", "b.py", "c.py"] : List String).toFinset) ∧
    (∀ g : Adj, (∀ n, ¬ Relation.TransGen (edge g) n n) →
      detectCircular g = .ok []) ∧
    (∀ (g : Adj) (cycles : List (List String)), detectCircular g = .ok cycles →
      (∀ c ∈ cycles, CycleShape g c) ∧ cycles.length ≤ g.length) :=
  ⟨⟨by decide, by decide⟩, detectCircular_acyclic, detectCircular_cycles⟩

theorem cycleDetector_spec_witness :
    detectCircular [("a.py", ["b.py"]), ("b.py", [])] = .ok [] ∧
    ((∀ c ∈ ([["a.py", "b.py", "c.py", "a.py"]] : List (List String)),
        CycleShape [("a.py", ["b.py"]), ("b.py", ["c.py"]), ("c.py", ["a.py"])] c) ∧
      ([["a.py", "b.py", "c.py", "a.py"]] : List (List String)).length ≤
        ([("a.py", ["b.py"]), ("b.py", ["c.py"]), ("c.py", ["a.py"])] : Adj).length) := by
  constructor
  · apply cycleDetector_spec.2.1
    intro n ht
    have hedge : ∀ x y, edge [("a.py", ["b.py"]), ("b.py", [])] x y →
        (if y = "a.py" then 1 else 0) < (if x = "a.py" then 1 else 0) := by
      intro x y h
      unfold edge at h
      rw [adjGet_cons] at h
      by_cases h1 : "a.py" = x
      · rw [if_pos h1] at h
        rw [List.mem_singleton] at h
        subst h
        subst h1
        simp
      · rw [if_neg h1, adjGet_cons] at h
        by_cases h2 : "b.py" = x
        · rw [if_pos h2] at h
          simp at h
        · rw [if_neg h2] at h
          simp [adjGet_nil] at h
    exact absurd (rank_lt_of_transGen hedge ht) (lt_irrefl _)
  · exact cycleDetector_spec.2.2 _ _ (by decide)

theorem pathsOf_eq_nil (files : List FileMetadataStandard) :
    pathsOf files = [] ↔ files = [] := by
  unfold pathsOf
  rw [List.dedup_eq_nil, List.map_eq_nil_iff]

theorem calculateSimilarity_eq_jaccard (base comp : CodebaseMetadata) :
    calculateSimilarity base comp =
      jaccardSpec (pathsOf base.files) (pathsOf comp.files) := by
  unfold calculateSimilarity jaccardSpec
  have h1 : base.files.length = 0 ↔ pathsOf base.files = [] := by
    rw [List.length_eq_zero, pathsOf_eq_nil]
  have h2 : comp.files.length = 0 ↔ pathsOf comp.files = [] := by
    rw [List.length_eq_zero, pathsOf_eq_nil]
  by_cases hb : pathsOf base.files = [] <;> by_cases hc : pathsOf comp.files = [] <;>
    simp [h1, h2, hb, hc, List.length_eq_zero, List.append_eq_nil]

theorem filter_not_mem_self {α : Type} [DecidableEq α] (l : List α) :
    l.filter (· ∉ l) = [] := by
  rw [List.filter_eq_nil_iff]
  intro a ha
  simp [ha]

theorem filter_mem_self {α : Type} [DecidableEq α] (l : List α) :
    l.filter (· ∈ l) = l := by
  rw [List.filter_eq_self]
  intro a ha
  simp [ha]

theorem pySorted_nil : pySorted [] = [] := rfl

theorem filter_not_mem_self_chains (l : List (List String)) :
    l.filter (· ∉ l) = [] := by
  rw [List.filter_eq_nil_iff]
  intro a ha
  simp [ha]

theorem isModifiedAt_self (files : List FileMetadataStandard) (p : String) :
    isModifiedAt files files p = false := by
  simp [isModifiedAt]

theorem pyRound_one_three : pyRound 1 3 = 1 := by
  unfold pyRound
  norm_num

/-- C2: `compare(s, s)` yields similarity `1.0`, empty added/removed/
modified lists, and the `"No significant changes detected"` sentinel. -/
theorem compare_self (s : CodebaseMetadata) :
    (compare s s).similarityScore = 1 ∧
    (compare s s).filesAdded = [] ∧
    (compare s s).filesRemoved = [] ∧
    (compare s s).filesModified = [] ∧
    (compare s s).comparisonSummary = "No significant changes detected" := by
  have hmod : ∀ l : List String,
      l.filter (isModifiedAt s.files s.files) = [] := by
    intro l
    rw [List.filter_eq_nil_iff]
    intro a _
    simp [isModifiedAt_self]
  have hunch : ∀ l : List String,
      l.filter (fun p => !(isModifiedAt s.files s.files p)) = l := by
    intro l
    rw [List.filter_eq_self]
    intro a _
    simp [isModifiedAt_self]
  have hfc : compareFileStructures s s =
      ⟨[], [], [], pySorted ((pathsOf s.files).filter (· ∈ pathsOf s.files))⟩ := by
    simp only [compareFileStructures, filter_not_mem_self, hmod, hunch, pySorted_nil]
  have hmc : (compareMetrics s s).sizeChange = 0 ∧
      (compareMetrics s s).linesChange = 0 := by
    constructor <;> simp [compareMetrics]
  have hdc : compareDependencies s s = ⟨[], [], [], []⟩ := by
    cases hd : s.dependencies with
    | none => simp [compareDependencies, hd]
    | some d =>
      simp only [compareDependencies, hd, filter_not_mem_self, pySorted_nil]
      rw [filter_not_mem_self_chains]
  have hsim : calculateSimilarity s s = 1 := by
    unfold calculateSimilarity
    by_cases h : s.files.length = 0
    · simp [h]
    · simp only [h, and_self, if_false, false_and, or_self]
      rw [filter_mem_self, filter_not_mem_self, List.append_nil]
      have hne : (pathsOf s.files).length ≠ 0 := by
        rw [Ne, List.length_eq_zero, pathsOf_eq_nil, ← List.length_eq_zero]
        exact h
      rw [if_neg hne]
      rw [div_self (by exact_mod_cast hne)]
      exact pyRound_one_three
  have hsum : generateSummary ⟨[], [], [], pySorted ((pathsOf s.files).filter
      (· ∈ pathsOf s.files))⟩ (compareMetrics s s) ⟨[], [], [], []⟩ =
      "No significant changes detected" := by
    unfold generateSummary
    rw [hmc.1, hmc.2]
    simp
  refine ⟨hsim, ?_, ?_, ?_, ?_⟩ <;>
    simp only [compare, hfc, hdc, hsum]

/-- C3: the similarity score is the Jaccard index of the two relative-path
sets (1.0 when both are empty, 0.0 when exactly one is, else intersection
size over union size rounded to three decimals); base `{a, b}` versus
candidate `{b, c}` gives similarity `0.333`, `files_added = [c]`,
`files_removed = [a]`. -/
theorem similarity_is_jaccard :
    (∀ base comp : CodebaseMetadata,
      calculateSimilarity base comp =
        jaccardSpec (pathsOf base.files) (pathsOf comp.files)) ∧
    (compare exampleBaseAB exampleCompBC).similarityScore = 333 / 1000 ∧
    (compare exampleBaseAB exampleCompBC).filesAdded = ["c"] ∧
    (compare exampleBaseAB exampleCompBC).filesRemoved = ["a"] := by
  refine ⟨calculateSimilarity_eq_jaccard, ?_, by decide, by decide⟩
  show calculateSimilarity exampleBaseAB exampleCompBC = 333 / 1000
  rw [calculateSimilarity_eq_jaccard]
  rw [show pathsOf exampleBaseAB.files = ["a", "b"] from by decide]
  rw [show pathsOf exampleCompBC.files = ["b", "c"] from by decide]
  unfold jaccardSpec
  simp only [List.filter_cons, List.filter_nil, List.cons_append, List.nil_append]
  rw [if_neg (by decide), if_neg (by decide), if_neg (by decide), if_pos (by decide),
    if_neg (by decide), if_pos (by decide)]
  norm_num [pyRound]

theorem scanDirectory_fold (entries : List ScanEntry) :
    ∀ st : ScanState,
      ((entries.foldl scanFile st).filesMetadata.length =
        st.filesMetadata.length +
          (entries.filter (fun e => e.ext ∈ supportedExtensions)).length) ∧
      ((entries.foldl scanFile st).totalLines =
        st.totalLines +
          ((entries.filter (fun e => e.ext ∈ supportedExtensions)).map
            (fun e => if e.ext = ".py" then (extractPythonMetrics e.content).lines
              else 0)).sum) ∧
      ((entries.foldl scanFile st).totalClasses =
        st.totalClasses +
          ((entries.filter (fun e => e.ext ∈ supportedExtensions)).map
            (fun e => if e.ext = ".py" then (extractPythonMetrics e.content).classes
              else 0)).sum) ∧
      ((entries.foldl scanFile st).totalFunctions =
        st.totalFunctions +
          ((entries.filter (fun e => e.ext ∈ supportedExtensions)).map
            (fun e => if e.ext = ".py" then (extractPythonMetrics e.content).functions
              else 0)).sum) := by
  induction entries with
  | nil => intro st; simp
  | cons e rest ih =>
    intro st
    rw [List.foldl_cons]
    obtain ⟨ih1, ih2, ih3, ih4⟩ := ih (scanFile st e)
    by_cases hs : e.ext ∈ supportedExtensions
    · have hfile : (scanFile st e).filesMetadata.length =
          st.filesMetadata.length + 1 := by
        simp [scanFile, hs]
      have hlines : (scanFile st e).totalLines =
          st.totalLines + (if e.ext = ".py" then
            (extractPythonMetrics e.content).lines else 0) := by
        simp [scanFile, hs]
      have hclasses : (scanFile st e).totalClasses =
          st.totalClasses + (if e.ext = ".py" then
            (extractPythonMetrics e.content).classes else 0) := by
        simp [scanFile, hs]
      have hfuns : (scanFile st e).totalFunctions =
          st.totalFunctions + (if e.ext = ".py" then
            (extractPythonMetrics e.content).functions else 0) := by
        simp [scanFile, hs]
      refine ⟨?_, ?_, ?_, ?_⟩
      · rw [ih1, hfile, List.filter_cons_of_pos (by simpa using hs)]
        simp only [List.length_cons]
        omega
      · rw [ih2, hlines, List.filter_cons_of_pos (by simpa using hs)]
        simp only [List.map_cons, List.sum_cons]
        omega
      · rw [ih3, hclasses, List.filter_cons_of_pos (by simpa using hs)]
        simp only [List.map_cons, List.sum_cons]
        omega
      · rw [ih4, hfuns, List.filter_cons_of_pos (by simpa using hs)]
        simp only [List.map_cons, List.sum_cons]
        omega
    · have hskip : scanFile st e = st := by
        simp [scanFile, hs]
      rw [hskip] at ih1 ih2 ih3 ih4 ⊢
      rw [List.filter_cons_of_neg (by simpa using hs)]
      exact ⟨ih1, ih2, ih3, ih4⟩

/-- C6: on a parse failure the extractors never raise: the template
summarizer returns an empty token list plus the structured
`syntax_error {line, message}`, the dependency extractor returns no tokens,
the metric extractor returns the raw line count with zero classes and
functions; and the scan processes every (supported) file, the aggregate
totals being the sums of the per-file metrics — a malformed file thus
contributes its raw line count and zero classes/functions. -/
theorem syntaxError_handling :
    (∀ (c : PyContent) (e : PySyntaxErr), c.parse = .error e →
      templateSummary c = ⟨[], c.splitlinesCount, some e⟩ ∧
      extractImports (some c) = [] ∧
      extractPythonMetrics (some c) = ⟨c.newlines + 1, 0, 0, []⟩) ∧
    (∀ entries : List ScanEntry,
      (scanDirectory entries).filesMetadata.length =
        (entries.filter (fun e => e.ext ∈ supportedExtensions)).length ∧
      (scanDirectory entries).totalLines =
        ((entries.filter (fun e => e.ext ∈ supportedExtensions)).map
          (fun e => if e.ext = ".py" then (extractPythonMetrics e.content).lines
            else 0)).sum ∧
      (scanDirectory entries).totalClasses =
        ((entries.filter (fun e => e.ext ∈ supportedExtensions)).map
          (fun e => if e.ext = ".py" then (extractPythonMetrics e.content).classes
            else 0)).sum ∧
      (scanDirectory entries).totalFunctions =
        ((entries.filter (fun e => e.ext ∈ supportedExtensions)).map
          (fun e => if e.ext = ".py" then
            (extractPythonMetrics e.content).functions else 0)).sum) := by
  constructor
  · intro c e h
    refine ⟨?_, ?_, ?_⟩ <;> simp [templateSummary, extractImports,
      extractPythonMetrics, h]
  · intro entries
    have h := scanDirectory_fold entries ScanState.init
    simpa [scanDirectory, ScanState.init] using h

theorem syntaxError_handling_witness :
    templateSummary ⟨3, 4, .error ⟨7, "invalid syntax"⟩⟩ =
      ⟨[], 4, some ⟨7, "invalid syntax"⟩⟩ ∧
    extractImports (some ⟨3, 4, .error ⟨7, "invalid syntax"⟩⟩) = [] ∧
    extractPythonMetrics (some ⟨3, 4, .error ⟨7, "invalid syntax"⟩⟩) =
      ⟨4, 0, 0, []⟩ :=
  syntaxError_handling.1 ⟨3, 4, .error ⟨7, "invalid syntax"⟩⟩
    ⟨7, "invalid syntax"⟩ rfl

theorem mem_setAdd {l : List String} {x y : String} :
    y ∈ setAdd l x ↔ y ∈ l ∨ y = x := by
  unfold setAdd
  by_cases h : x ∈ l
  · simp only [if_pos h]
    constructor
    · exact Or.inl
    · rintro (hy | rfl)
      · exact hy
      · exact h
  · simp [if_neg h]

theorem mem_extFold (imports : List String) :
    ∀ (acc : List String) (name : String),
      (name ∈ imports.foldl (fun acc imp =>
          if pyStartsWith imp "." = false ∧ containsDot imp = false then
            setAdd acc imp
          else acc) acc) ↔
        (name ∈ acc ∨ (name ∈ imports ∧
          pyStartsWith name "." = false ∧ containsDot name = false)) := by
  induction imports with
  | nil => simp
  | cons i rest ih =>
    intro acc name
    rw [List.foldl_cons]
    by_cases hc : pyStartsWith i "." = false ∧ containsDot i = false
    · rw [if_pos hc, ih]
      rw [mem_setAdd]
      constructor
      · rintro ((hn | rfl) | ⟨hn, hcn⟩)
        · exact Or.inl hn
        · exact Or.inr ⟨List.mem_cons_self _ _, hc⟩
        · exact Or.inr ⟨List.mem_cons_of_mem _ hn, hcn⟩
      · rintro (hn | ⟨hn, hcn⟩)
        · exact Or.inl (Or.inl hn)
        · rcases List.mem_cons.mp hn with rfl | hn
          · exact Or.inl (Or.inr rfl)
          · exact Or.inr ⟨hn, hcn⟩
    · rw [if_neg hc, ih]
      constructor
      · rintro (hn | ⟨hn, hcn⟩)
        · exact Or.inl hn
        · exact Or.inr ⟨List.mem_cons_of_mem _ hn, hcn⟩
      · rintro (hn | ⟨hn, hcn⟩)
        · exact Or.inl hn
        · rcases List.mem_cons.mp hn with rfl | hn
          · exact absurd hcn hc
          · exact Or.inr ⟨hn, hcn⟩

theorem scanFile_externals (st : ScanState) (e : ScanEntry) (name : String) :
    name ∈ (scanFile st e).externalPackages ↔
      (name ∈ st.externalPackages ∨ (e.ext = ".py" ∧
        name ∈ (extractPythonMetrics e.content).imports ∧
        pyStartsWith name "." = false ∧ containsDot name = false)) := by
  have hext : (scanFile st e).externalPackages =
      (if e.ext ∈ supportedExtensions then
        (if e.ext = ".py" then
          (extractPythonMetrics e.content).imports.foldl (fun acc imp =>
            if pyStartsWith imp "." = false ∧ containsDot imp = false then
              setAdd acc imp
            else acc) st.externalPackages
         else st.externalPackages)
       else st.externalPackages) := by
    by_cases hs : e.ext ∈ supportedExtensions <;> simp [scanFile, hs]
  rw [hext]
  by_cases hs : e.ext ∈ supportedExtensions
  · rw [if_pos hs]
    by_cases hpy : e.ext = ".py"
    · rw [if_pos hpy, mem_extFold]
      simp [hpy]
    · rw [if_neg hpy]
      simp [hpy]
  · rw [if_neg hs]
    have hpy : ¬ e.ext = ".py" := fun h =>
      hs (h ▸ (by decide : (".py" : String) ∈ supportedExtensions))
    simp [hpy]

/-- C8 (amended): the external-package set contains exactly the
single-segment (no dot), non-relative import tokens of the parsed Python
files — with no resolution or locality check. -/
theorem externalPackages_characterization :
    ∀ (entries : List ScanEntry) (name : String),
      name ∈ (scanDirectory entries).externalPackages ↔
        ∃ e ∈ entries, e.ext = ".py" ∧
          name ∈ (extractPythonMetrics e.content).imports ∧
          pyStartsWith name "." = false ∧ containsDot name = false := by
  have key : ∀ (entries : List ScanEntry) (st : ScanState) (name : String),
      name ∈ (entries.foldl scanFile st).externalPackages ↔
        (name ∈ st.externalPackages ∨ ∃ e ∈ entries, e.ext = ".py" ∧
          name ∈ (extractPythonMetrics e.content).imports ∧
          pyStartsWith name "." = false ∧ containsDot name = false) := by
    intro entries
    induction entries with
    | nil => simp
    | cons e rest ih =>
      intro st name
      rw [List.foldl_cons, ih, scanFile_externals]
      constructor
      · rintro ((hn | he) | ⟨f, hf, hfp⟩)
        · exact Or.inl hn
        · exact Or.inr ⟨e, List.mem_cons_self _ _, he⟩
        · exact Or.inr ⟨f, List.mem_cons_of_mem _ hf, hfp⟩
      · rintro (hn | ⟨f, hf, hfp⟩)
        · exact Or.inl (Or.inl hn)
        · rcases List.mem_cons.mp hf with rfl | hf
          · exact Or.inl (Or.inr hfp)
          · exact Or.inr ⟨f, hf, hfp⟩
  intro entries name
  rw [scanDirectory, key]
  simp [ScanState.init]

/-- C8 counterexample: on the tree `{utils.py, main.py}` where `main.py`
does `import utils`, the token `utils` lands in the external-package set
although it resolves to `utils.py` and matches the local-prefix heuristic
— refuting "unresolved and non-local … does not refer to a file of the
analyzed tree". -/
theorem externalPackages_claim_counterexample :
    ¬ (∀ name ∈ (scanDirectory utilsMainTree).externalPackages,
        resolveImport name
          (buildModuleMapping (utilsMainTree.map (·.relPath))) = none ∧
        isLocalImport name = false) := by
  intro h
  have hmem : "utils" ∈ (scanDirectory utilsMainTree).externalPackages := by decide
  have := h "utils" hmem
  have hres : resolveImport "utils"
      (buildModuleMapping (utilsMainTree.map (·.relPath))) = some "utils.py" := by
    decide
  rw [hres] at this
  cases this.1

/-- C9: `build_graph` is a pure function of the uploaded tree: identical
inputs produce identical nodes, edges, cycles and statistics.  The routes
construct a fresh `DependencyGraphBuilder` before every `build_graph`
call, so the embedding's freshly initialised state is exactly the state
each call runs with, and no hidden state can influence the output. -/
theorem buildGraph_deterministic :
    ∀ t1 t2 : PyTree, t1 = t2 → buildGraph t1 = buildGraph t2 :=
  fun _ _ h => congrArg buildGraph h

theorem buildGraph_deterministic_witness :
    buildGraph cyclicTriangle = buildGraph cyclicTriangle :=
  buildGraph_deterministic cyclicTriangle cyclicTriangle rfl

theorem buildModuleMapping_values {files : List String} {k v : String}
    (h : mapLookup (buildModuleMapping files) k = some v) : v ∈ files := by
  unfold buildModuleMapping at h
  have key : ∀ (l : List String) (m : StrMap),
      (∀ k2 v2, mapLookup m k2 = some v2 → v2 ∈ files) →
      (∀ x ∈ l, x ∈ files) →
      ∀ k2 v2, mapLookup (l.foldl registerFile m) k2 = some v2 → v2 ∈ files := by
    intro l
    induction l with
    | nil => exact fun m hm _ => hm
    | cons f rest ih =>
      intro m hm hl k2 v2 h2
      refine ih (registerFile m f) ?_ (fun x hx => hl x (List.mem_cons_of_mem _ hx))
        k2 v2 h2
      intro k3 v3 h3
      rcases registerFile_val h3 with h4 | h4
      · exact hm k3 v3 h4
      · exact h4 ▸ hl f (List.mem_cons_self _ _)
  exact key files []
    (by
      intro k2 v2 h2
      rw [mapLookup_nil] at h2
      cases h2)
    (fun x hx => hx) k v h

theorem resolvePrefixes_values {parts : List String} {m : StrMap}
    {is : List Nat} {v : String} (h : resolvePrefixes parts m is = some v) :
    ∃ k, mapLookup m k = some v := by
  induction is with
  | nil => simp [resolvePrefixes] at h
  | cons i rest ih =>
    simp only [resolvePrefixes] at h
    cases hl : mapLookup m (joinDot (parts.take i)) with
    | some w =>
      rw [hl] at h
      injection h with h
      exact ⟨joinDot (parts.take i), h ▸ hl⟩
    | none =>
      rw [hl] at h
      exact ih h

theorem resolveImport_values {imp : String} {m : StrMap} {v : String}
    (h : resolveImport imp m = some v) : ∃ k, mapLookup m k = some v := by
  unfold resolveImport at h
  cases hl : mapLookup m imp with
  | some w =>
    rw [hl] at h
    injection h with h
    exact ⟨imp, h ▸ hl⟩
  | none =>
    rw [hl] at h
    exact resolvePrefixes_values h

theorem processImport_adjGet_absent (mmap : StrMap) (fp i p : String)
    (st : RelState) (hpf : ¬ p = fp)
    (hpt : ∀ tgt, resolveImport i mmap = some tgt → ¬ p = tgt) :
    adjGet (processImport mmap fp st i).graph p = adjGet st.graph p ∧
    adjGet (processImport mmap fp st i).reverseGraph p =
      adjGet st.reverseGraph p := by
  unfold processImport
  cases hr : resolveImport i mmap with
  | some tgt =>
    constructor
    · rw [show (⟨adjAdd st.graph fp tgt, adjAdd st.reverseGraph tgt fp,
          st.missingImports⟩ : RelState).graph = adjAdd st.graph fp tgt from rfl]
      rw [adjGet_adjAdd, if_neg hpf]
    · rw [show (⟨adjAdd st.graph fp tgt, adjAdd st.reverseGraph tgt fp,
          st.missingImports⟩ : RelState).reverseGraph =
          adjAdd st.reverseGraph tgt fp from rfl]
      rw [adjGet_adjAdd, if_neg (hpt tgt hr)]
  | none =>
    by_cases hl : isLocalImport i <;> simp [hl]

theorem buildRelationships_absent (filesData : List (String × List String))
    (p : String) (hp : p ∉ filesData.map (·.1)) :
    adjGet (buildRelationships filesData).graph p = [] ∧
    adjGet (buildRelationships filesData).reverseGraph p = [] := by
  unfold buildRelationships
  have htgt : ∀ imp tgt,
      resolveImport imp (buildModuleMapping (filesData.map (·.1))) = some tgt →
      tgt ≠ p := by
    intro imp tgt h htp
    obtain ⟨k, hk⟩ := resolveImport_values h
    exact hp (htp ▸ buildModuleMapping_values hk)
  generalize hm : buildModuleMapping (filesData.map (·.1)) = mmap
  rw [hm] at htgt
  have inner : ∀ (imps : List String) (fp : String) (st : RelState), ¬ p = fp →
      adjGet (imps.foldl (processImport mmap fp) st).graph p = adjGet st.graph p ∧
      adjGet (imps.foldl (processImport mmap fp) st).reverseGraph p =
        adjGet st.reverseGraph p := by
    intro imps fp
    induction imps with
    | nil => exact fun st _ => ⟨rfl, rfl⟩
    | cons i rest ih =>
      intro st hpf
      rw [List.foldl_cons]
      obtain ⟨ih1, ih2⟩ := ih (processImport mmap fp st i) hpf
      rw [ih1, ih2]
      exact processImport_adjGet_absent mmap fp i p st hpf
        (fun tgt hr htp => htgt i tgt hr htp.symm)
  have outer : ∀ (l : List (String × List String)) (st : RelState),
      (∀ e ∈ l, e.1 ≠ p) →
      adjGet (l.foldl (fun st e => e.2.foldl (processImport mmap e.1) st) st).graph p
          = adjGet st.graph p ∧
      adjGet (l.foldl (fun st e =>
          e.2.foldl (processImport mmap e.1) st) st).reverseGraph p
        = adjGet st.reverseGraph p := by
    intro l
    induction l with
    | nil => exact fun st _ => ⟨rfl, rfl⟩
    | cons e rest ih =>
      intro st hl
      rw [List.foldl_cons]
      obtain ⟨ih1, ih2⟩ := ih (e.2.foldl (processImport mmap e.1) st)
        (fun f hf => hl f (List.mem_cons_of_mem _ hf))
      rw [ih1, ih2]
      exact inner e.2 e.1 st
        (fun h => hl e (List.mem_cons_self _ _) h.symm)
  have hfp : ∀ e ∈ filesData, e.1 ≠ p := by
    intro e he heq
    exact hp (heq ▸ List.mem_map_of_mem (·.1) he)
  obtain ⟨h1, h2⟩ := outer filesData RelState.init hfp
  exact ⟨h1, h2⟩

/-- C10: `get_file_dependencies` is a total pure read: for any path with no
recorded forward or reverse edges — in particular any path not present in
the analyzed tree — it returns the record with empty `imports_from` /
`imported_by` and both counts zero, leaving the graphs untouched. -/
theorem getFileDependencies_no_edges :
    (∀ (st : RelState) (p : String),
      adjGet st.graph p = [] → adjGet st.reverseGraph p = [] →
      getFileDependencies st p = ⟨p, [], [], 0, 0⟩) ∧
    (∀ (filesData : List (String × List String)) (p : String),
      p ∉ filesData.map (·.1) →
      getFileDependencies (buildRelationships filesData) p = ⟨p, [], [], 0, 0⟩) := by
  constructor
  · intro st p h1 h2
    unfold getFileDependencies
    rw [h1, h2]
    rfl
  · intro filesData p hp
    obtain ⟨h1, h2⟩ := buildRelationships_absent filesData p hp
    unfold getFileDependencies
    rw [h1, h2]
    rfl

theorem getFileDependencies_no_edges_witness :
    getFileDependencies RelState.init "x.py" = ⟨"x.py", [], [], 0, 0⟩ ∧
    getFileDependencies (buildRelationships [("a.py", ["b"]), ("b.py", [])])
      "zzz.py" = ⟨"zzz.py", [], [], 0, 0⟩ :=
  ⟨getFileDependencies_no_edges.1 RelState.init "x.py" rfl rfl,
   getFileDependencies_no_edges.2 [("a.py", ["b"]), ("b.py", [])] "zzz.py"
     (by decide)⟩

end CBX
